import Mathlib

/-!
# Verification of the Multipart.ts codec

A shallow embedding of the multipart MIME codec from `src/Multipart.ts` and
`src/Component.ts`, together with proofs about its parsing, serialization,
boundary-scanning and header-parameter machinery.

Modelling conventions:
* Byte buffers (`Uint8Array`) are `List Nat` with byte values.
* JavaScript strings are modelled at byte level (`List Nat`); this is faithful
  for ASCII data, where `TextEncoder`/`TextDecoder` are the identity on code
  points.
* The platform `Headers` collaborator is modelled as an insertion-ordered
  association list; iteration yields byte-lowercased names (as the platform
  does), so `append`/`set` store the lowercased name.
* Exceptions are modelled with `Option` (`none` = the operation throws).
* All loops and recursions are fuel-based structural recursions, with the fuel
  chosen provably large enough, so every definition evaluates by `decide`.
-/

namespace MP

/-- Carriage return byte (`Multipart.CR`). -/
def CR : Nat := 13

/-- Line feed byte (`Multipart.LF`). -/
def LF : Nat := 10

/-- Space byte (`Multipart.SP`). -/
def SP : Nat := 32

/-- Horizontal tab byte (`Multipart.HT`). -/
def HT : Nat := 9

/-- Colon byte (`Multipart.COLON`). -/
def COLON : Nat := 58

/-- Dash byte (`Multipart.DASH`). -/
def DASH : Nat := 45

/-- `Multipart.CRLF`. -/
def CRLF : List Nat := [CR, LF]

/-- `Multipart.DOUBLE_DASH` (`--`). -/
def DOUBLE_DASH : List Nat := [DASH, DASH]

/-- Byte list of an ASCII string literal (UTF-8 encoding restricted to ASCII,
where it is the identity on code points). -/
def str (s : String) : List Nat := s.data.map Char.toNat

/-- `data` matches byte sequence `seq` starting at index `i`
(the inner loop of `Multipart.findSequenceIndex`). -/
def matchAt (data seq : List Nat) (i : Nat) : Bool :=
  (data.drop i).take seq.length == seq

/-- Scanning core of `Multipart.findSequenceIndex`: try indices `i, i+1, ...`,
`fuel` of them. -/
def findSeqAux (data seq : List Nat) : Nat → Nat → Option Nat
  | _, 0 => none
  | i, fuel + 1 =>
    if matchAt data seq i then some i else findSeqAux data seq (i + 1) fuel

/-- `Multipart.findSequenceIndex`: first index `i ≥ start` where `seq` occurs in
`data`; `none` plays the role of the `-1` sentinel.  A `start` outside
`[0, data.length)` yields `none` immediately, as in the source. -/
def findSequenceIndex (data seq : List Nat) (start : Nat) : Option Nat :=
  if start < data.length then findSeqAux data seq start (data.length - start) else none

theorem findSeqAux_some {data seq : List Nat} :
    ∀ {i fuel j : Nat}, findSeqAux data seq i fuel = some j →
      i ≤ j ∧ j < i + fuel ∧ matchAt data seq j = true ∧
        ∀ k, i ≤ k → k < j → matchAt data seq k = false := by
  intro i fuel
  induction fuel generalizing i with
  | zero => intro j h; simp [findSeqAux] at h
  | succ f ih =>
    intro j h
    by_cases hm : matchAt data seq i
    · simp [findSeqAux, hm] at h
      subst h
      exact ⟨Nat.le_refl _, by omega, hm, fun k hk1 hk2 => absurd hk1 (by omega)⟩
    · simp [findSeqAux, hm] at h
      obtain ⟨h1, h2, h3, h4⟩ := ih h
      refine ⟨by omega, by omega, h3, ?_⟩
      intro k hk1 hk2
      rcases Nat.eq_or_lt_of_le hk1 with rfl | hlt
      · exact Bool.eq_false_iff.mpr hm
      · exact h4 k hlt hk2

theorem findSeqAux_of_first {data seq : List Nat} :
    ∀ {i fuel j : Nat}, i ≤ j → j < i + fuel → matchAt data seq j = true →
      (∀ k, i ≤ k → k < j → matchAt data seq k = false) →
      findSeqAux data seq i fuel = some j := by
  intro i fuel
  induction fuel generalizing i with
  | zero => intro j h1 h2; omega
  | succ f ih =>
    intro j h1 h2 h3 h4
    rcases Nat.eq_or_lt_of_le h1 with rfl | hlt
    · simp [findSeqAux, h3]
    · have hne : matchAt data seq i = false := h4 i (Nat.le_refl _) hlt
      simp [findSeqAux, hne]
      exact ih hlt (by omega) h3 (fun k hk1 hk2 => h4 k (by omega) hk2)

theorem findSeqAux_none {data seq : List Nat} :
    ∀ {i fuel : Nat}, (∀ k, i ≤ k → k < i + fuel → matchAt data seq k = false) →
      findSeqAux data seq i fuel = none := by
  intro i fuel
  induction fuel generalizing i with
  | zero => intro _; rfl
  | succ f ih =>
    intro h
    have hne : matchAt data seq i = false := h i (Nat.le_refl _) (by omega)
    simp [findSeqAux, hne]
    exact ih (fun k hk1 hk2 => h k (by omega) (by omega))

/-- A successful `findSequenceIndex` returns an index at or after `start`. -/
theorem findSequenceIndex_le {data seq : List Nat} {start i : Nat}
    (h : findSequenceIndex data seq start = some i) :
    start ≤ i ∧ i < data.length ∧ matchAt data seq i = true ∧
      ∀ k, start ≤ k → k < i → matchAt data seq k = false := by
  unfold findSequenceIndex at h
  by_cases hs : start < data.length
  · simp [hs] at h
    obtain ⟨h1, h2, h3, h4⟩ := findSeqAux_some h
    exact ⟨h1, by omega, h3, h4⟩
  · simp [hs] at h

/-- `findSequenceIndex` characterization: finding the first match. -/
theorem findSequenceIndex_eq_some {data seq : List Nat} {start i : Nat}
    (h1 : start ≤ i) (h2 : i < data.length) (h3 : matchAt data seq i = true)
    (h4 : ∀ k, start ≤ k → k < i → matchAt data seq k = false) :
    findSequenceIndex data seq start = some i := by
  unfold findSequenceIndex
  have hs : start < data.length := by omega
  simp [hs]
  exact findSeqAux_of_first h1 (by omega) h3 h4

/-- `findSequenceIndex` finds nothing iff there is no match at or after `start`
(within the buffer). -/
theorem findSequenceIndex_eq_none {data seq : List Nat} {start : Nat}
    (h : ∀ k, start ≤ k → k < data.length → matchAt data seq k = false) :
    findSequenceIndex data seq start = none := by
  unfold findSequenceIndex
  by_cases hs : start < data.length
  · simp [hs]
    exact findSeqAux_none (fun k hk1 hk2 => h k hk1 (by omega))
  · simp [hs]

theorem matchAt_shift (A l seq : List Nat) (k : Nat) :
    matchAt (A ++ l) seq (A.length + k) = matchAt l seq k := by
  unfold matchAt
  rw [List.drop_append]

theorem findSeqAux_shift (A l seq : List Nat) :
    ∀ (fuel i : Nat), findSeqAux (A ++ l) seq (A.length + i) fuel =
      (findSeqAux l seq i fuel).map (A.length + ·) := by
  intro fuel
  induction fuel with
  | zero => intro i; rfl
  | succ f ih =>
    intro i
    unfold findSeqAux
    rw [matchAt_shift]
    by_cases hm : matchAt l seq i
    · simp [hm]
    · simp only [hm, if_false, Bool.false_eq_true]
      have := ih (i + 1)
      rw [show A.length + i + 1 = A.length + (i + 1) by omega]
      exact this

theorem findSequenceIndex_shift (A l seq : List Nat) (s : Nat) (h : A.length ≤ s) :
    findSequenceIndex (A ++ l) seq s =
      (findSequenceIndex l seq (s - A.length)).map (A.length + ·) := by
  unfold findSequenceIndex
  rw [List.length_append]
  by_cases hs : s < A.length + l.length
  · have h1 : s - A.length < l.length := by omega
    simp only [hs, if_true, h1]
    have key := findSeqAux_shift A l seq (l.length - (s - A.length)) (s - A.length)
    rw [show A.length + (s - A.length) = s from by omega] at key
    rw [show A.length + l.length - s = l.length - (s - A.length) from by omega]
    exact key
  · have h1 : ¬ (s - A.length < l.length) := by omega
    simp [hs, h1]

/-- Result of the transport-padding scan loop inside
`Multipart.findBoundaryBounds`: the boundary line is terminated at `e`
(`term e`, i.e. a CRLF was found, `e` just past it), a non-padding byte was hit
before any CRLF (`reject`, the false-positive case), or the buffer ran out
(`offEnd`, the loop fell through and the function returns `null`). -/
inductive ScanR where
  | term (e : Nat)
  | reject
  | offEnd
deriving DecidableEq

/-- The `while (currentEndOfBoundaryIndex < data.length)` loop of
`Multipart.findBoundaryBounds`, scanning over space/tab padding for the
terminating CRLF.  `fuel` is `data.length - i` at every call. -/
def scanAux (data : List Nat) : Nat → Nat → ScanR
  | _, 0 => .offEnd
  | i, fuel + 1 =>
    if data[i]? = some CR ∧ data[i + 1]? = some LF then .term (i + 2)
    else if data[i]? = some SP ∨ data[i]? = some HT then scanAux data (i + 1) fuel
    else if i < data.length then .reject
    else .offEnd

theorem scanAux_term_bounds (data : List Nat) :
    ∀ (fuel i e : Nat), scanAux data i fuel = .term e →
      i + 2 ≤ e ∧ e ≤ data.length := by
  intro fuel
  induction fuel with
  | zero => intro i e h; simp [scanAux] at h
  | succ f ih =>
    intro i e h
    unfold scanAux at h
    by_cases h1 : data[i]? = some CR ∧ data[i + 1]? = some LF
    · simp only [h1, if_true] at h
      cases h
      have : i + 1 < data.length := by
        have := h1.2
        exact List.getElem?_eq_some_iff.mp this |>.1
      omega
    · simp only [h1, if_false] at h
      by_cases h2 : data[i]? = some SP ∨ data[i]? = some HT
      · simp only [h2, if_true] at h
        have := ih (i + 1) e h
        omega
      · simp only [h2, if_false] at h
        by_cases h3 : i < data.length <;> simp [h3] at h

theorem scanAux_shift (A l : List Nat) :
    ∀ (fuel i : Nat),
      scanAux (A ++ l) (A.length + i) fuel =
        match scanAux l i fuel with
        | .term e => .term (A.length + e)
        | .reject => .reject
        | .offEnd => .offEnd := by
  intro fuel
  induction fuel with
  | zero => intro i; rfl
  | succ f ih =>
    intro i
    have g1 : (A ++ l)[A.length + i]? = l[i]? := by
      rw [List.getElem?_append_right (by omega)]
      congr 1
      omega
    have g2 : (A ++ l)[A.length + i + 1]? = l[i + 1]? := by
      rw [List.getElem?_append_right (by omega)]
      congr 1
      omega
    unfold scanAux
    rw [g1, g2]
    by_cases h1 : l[i]? = some CR ∧ l[i + 1]? = some LF
    · rw [if_pos h1, if_pos h1]
      show ScanR.term (A.length + i + 2) = ScanR.term (A.length + (i + 2))
      rw [Nat.add_assoc]
    · rw [if_neg h1, if_neg h1]
      by_cases h2 : l[i]? = some SP ∨ l[i]? = some HT
      · rw [if_pos h2, if_pos h2]
        rw [show A.length + i + 1 = A.length + (i + 1) from by omega]
        exact ih (i + 1)
      · rw [if_neg h2, if_neg h2]
        rw [List.length_append]
        by_cases h3 : i < l.length
        · rw [if_pos h3, if_pos (show A.length + i < A.length + l.length from by omega)]
        · rw [if_neg h3, if_neg (show ¬ A.length + i < A.length + l.length from by omega)]

/-- Running the scan over a run of padding bytes ending in CRLF terminates the
boundary line. -/
theorem scanAux_run_term (data : List Nat) :
    ∀ (fuel i j : Nat), fuel = data.length - i → i ≤ j →
      (∀ k, i ≤ k → k < j → data[k]? = some SP ∨ data[k]? = some HT) →
      data[j]? = some CR → data[j + 1]? = some LF →
      scanAux data i fuel = .term (j + 2) := by
  intro fuel
  induction fuel with
  | zero =>
    intro i j hf hij hpad hcr _
    have : j < data.length := List.getElem?_eq_some_iff.mp hcr |>.1
    omega
  | succ f ih =>
    intro i j hf hij hpad hcr hlf
    unfold scanAux
    rcases Nat.eq_or_lt_of_le hij with rfl | hlt
    · rw [if_pos ⟨hcr, hlf⟩]
    · have hp : data[i]? = some SP ∨ data[i]? = some HT := hpad i (Nat.le_refl _) hlt
      have h1 : ¬ (data[i]? = some CR ∧ data[i + 1]? = some LF) := by
        rcases hp with hp | hp <;> simp [hp, CR, SP, HT]
      rw [if_neg h1, if_pos hp]
      exact ih (i + 1) j (by omega) (by omega)
        (fun k hk1 hk2 => hpad k (by omega) hk2) hcr hlf

/-- Running the scan over a run of padding bytes into a byte that neither pads
nor starts a CRLF rejects the candidate. -/
theorem scanAux_run_reject (data : List Nat) :
    ∀ (fuel i j b : Nat), fuel = data.length - i → i ≤ j →
      (∀ k, i ≤ k → k < j → data[k]? = some SP ∨ data[k]? = some HT) →
      data[j]? = some b → b ≠ SP → b ≠ HT →
      ¬ (b = CR ∧ data[j + 1]? = some LF) →
      scanAux data i fuel = .reject := by
  intro fuel
  induction fuel with
  | zero =>
    intro i j b hf hij hpad hb _ _ _
    have : j < data.length := List.getElem?_eq_some_iff.mp hb |>.1
    omega
  | succ f ih =>
    intro i j b hf hij hpad hb hsp hht hcrlf
    have hjlen : j < data.length := List.getElem?_eq_some_iff.mp hb |>.1
    unfold scanAux
    rcases Nat.eq_or_lt_of_le hij with rfl | hlt
    · have h1 : ¬ (data[i]? = some CR ∧ data[i + 1]? = some LF) := by
        intro hc
        rw [hb] at hc
        have hbc : b = CR := by
          have := hc.1
          simp at this
          omega
        exact hcrlf ⟨hbc, hc.2⟩
      have h2 : ¬ (data[i]? = some SP ∨ data[i]? = some HT) := by
        rw [hb]
        intro hc
        rcases hc with hc | hc <;> simp at hc <;> omega
      rw [if_neg h1, if_neg h2, if_pos hjlen]
    · have hp : data[i]? = some SP ∨ data[i]? = some HT := hpad i (Nat.le_refl _) hlt
      have h1 : ¬ (data[i]? = some CR ∧ data[i + 1]? = some LF) := by
        rcases hp with hp | hp <;> simp [hp, CR, SP, HT]
      rw [if_neg h1, if_pos hp]
      exact ih (i + 1) j b (by omega) (by omega)
        (fun k hk1 hk2 => hpad k (by omega) hk2) hb hsp hht hcrlf

/-- Fuel-indexed core of `Multipart.findBoundaryBounds`.  Each false-positive
recovery advances the search start strictly, so a fuel of
`data.length + 1 - start` always suffices. -/
def fbbAux (data boundary : List Nat) : Nat → Nat → Option (Nat × Nat)
  | _, 0 => none
  | start, fuel + 1 =>
    if data.length ≤ start then none
    else
      match findSequenceIndex data (CRLF ++ DOUBLE_DASH ++ boundary) start with
      | none => none
      | some bsi =>
        match scanAux data (bsi + boundary.length + 4)
            (data.length - (bsi + boundary.length + 4)) with
        | .term e => some (bsi, e)
        | .reject => fbbAux data boundary (bsi + 2) fuel
        | .offEnd => none

/-- `Multipart.findBoundaryBounds`: start and end index of a boundary delimiter
line (`CRLF "--" boundary [padding] CRLF`), or `none`. -/
def findBoundaryBounds (data boundary : List Nat) (start : Nat) : Option (Nat × Nat) :=
  fbbAux data boundary start (data.length + 1 - start)

theorem fbbAux_some (data boundary : List Nat) :
    ∀ (fuel start b e : Nat), fbbAux data boundary start fuel = some (b, e) →
      start ≤ b ∧ b + boundary.length + 6 ≤ e ∧ e ≤ data.length := by
  intro fuel
  induction fuel with
  | zero => intro start b e h; simp [fbbAux] at h
  | succ f ih =>
    intro start b e h
    unfold fbbAux at h
    by_cases hs : data.length ≤ start
    · simp [hs] at h
    · simp only [hs, if_false] at h
      cases hfs : findSequenceIndex data (CRLF ++ DOUBLE_DASH ++ boundary) start with
      | none => rw [hfs] at h; simp at h
      | some bsi =>
        rw [hfs] at h
        dsimp only at h
        have hle := (findSequenceIndex_le hfs).1
        cases hsc : scanAux data (bsi + boundary.length + 4)
            (data.length - (bsi + boundary.length + 4)) with
        | term e2 =>
          rw [hsc] at h
          simp at h
          obtain ⟨rfl, rfl⟩ := h
          have := scanAux_term_bounds data _ _ _ hsc
          omega
        | reject =>
          rw [hsc] at h
          dsimp only at h
          have := ih (bsi + 2) b e h
          omega
        | offEnd => rw [hsc] at h; simp at h

theorem fbbAux_fuel (data boundary : List Nat) :
    ∀ (f g start : Nat), data.length + 1 ≤ start + f → data.length + 1 ≤ start + g →
      fbbAux data boundary start f = fbbAux data boundary start g := by
  intro f
  induction f with
  | zero =>
    intro g start hf hg
    cases g with
    | zero => rfl
    | succ g =>
      have hs : data.length ≤ start := by omega
      show (none : Option (Nat × Nat)) = fbbAux data boundary start (g + 1)
      unfold fbbAux
      rw [if_pos hs]
  | succ f ih =>
    intro g start hf hg
    cases g with
    | zero =>
      have hs : data.length ≤ start := by omega
      show fbbAux data boundary start (f + 1) = (none : Option (Nat × Nat))
      unfold fbbAux
      rw [if_pos hs]
    | succ g =>
      unfold fbbAux
      by_cases hs : data.length ≤ start
      · rw [if_pos hs, if_pos hs]
      · rw [if_neg hs, if_neg hs]
        cases hfs : findSequenceIndex data (CRLF ++ DOUBLE_DASH ++ boundary) start with
        | none => rfl
        | some bsi =>
          have hle := (findSequenceIndex_le hfs).1
          dsimp only
          cases hsc : scanAux data (bsi + boundary.length + 4)
              (data.length - (bsi + boundary.length + 4)) with
          | term e2 => rfl
          | reject => exact ih g (bsi + 2) (by omega) (by omega)
          | offEnd => rfl

theorem findBoundaryBounds_some {data boundary : List Nat} {start b e : Nat}
    (h : findBoundaryBounds data boundary start = some (b, e)) :
    start ≤ b ∧ b + boundary.length + 6 ≤ e ∧ e ≤ data.length :=
  fbbAux_some data boundary _ start b e h

theorem fbbAux_shift (A l boundary : List Nat) :
    ∀ (fuel s : Nat), A.length ≤ s →
      fbbAux (A ++ l) boundary s fuel =
        (fbbAux l boundary (s - A.length) fuel).map
          (fun p => (A.length + p.1, A.length + p.2)) := by
  intro fuel
  induction fuel with
  | zero => intro s _; rfl
  | succ f ih =>
    intro s hAs
    unfold fbbAux
    rw [List.length_append]
    by_cases hs : A.length + l.length ≤ s
    · have h1 : l.length ≤ s - A.length := by omega
      simp [hs, h1]
    · have h1 : ¬ (l.length ≤ s - A.length) := by omega
      simp only [hs, if_false, h1]
      rw [findSequenceIndex_shift A l _ s hAs]
      cases hfs : findSequenceIndex l (CRLF ++ DOUBLE_DASH ++ boundary) (s - A.length) with
      | none => rfl
      | some bsi =>
        dsimp only [Option.map]
        have harith : A.length + bsi + boundary.length + 4 =
            A.length + (bsi + boundary.length + 4) := by omega
        have harith2 : A.length + l.length - (A.length + (bsi + boundary.length + 4)) =
            l.length - (bsi + boundary.length + 4) := by omega
        rw [harith, harith2, scanAux_shift A l]
        cases hsc2 : scanAux l (bsi + boundary.length + 4)
            (l.length - (bsi + boundary.length + 4)) with
        | term e2 => rfl
        | reject =>
          dsimp only
          rw [show A.length + bsi + 2 = A.length + (bsi + 2) from by omega]
          rw [ih (A.length + (bsi + 2)) (by omega)]
          rw [show A.length + (bsi + 2) - A.length = bsi + 2 from by omega]
          cases fbbAux l boundary (bsi + 2) f <;> rfl
        | offEnd => rfl

theorem findBoundaryBounds_shift (A l boundary : List Nat) (s : Nat) (h : A.length ≤ s) :
    findBoundaryBounds (A ++ l) boundary s =
      (findBoundaryBounds l boundary (s - A.length)).map
        (fun p => (A.length + p.1, A.length + p.2)) := by
  unfold findBoundaryBounds
  rw [fbbAux_shift A l boundary _ s h]
  congr 1
  exact fbbAux_fuel l boundary _ _ _ (by rw [List.length_append]; omega) (by omega)

/-! ## The header collection collaborator

The platform `Headers` object, modelled as an insertion-ordered association
list.  Iteration yields byte-lowercased names, so `set`/`append` store the
lowercased name; `get` and the duplicate check are case-insensitive.
`append` combines duplicate names into a single `", "`-joined entry, as the
platform's iterator does. -/

/-- Whitespace recognized by the JS `String.prototype.trim` used in
`Component.parse` and `Multipart.parseHeaderParams`, restricted to ASCII. -/
def jsWS (b : Nat) : Bool := b == 9 || b == 10 || b == 11 || b == 12 || b == 13 || b == 32

/-- Drop bytes satisfying `p` from both ends. -/
def trimBy (p : Nat → Bool) (l : List Nat) : List Nat :=
  ((l.dropWhile p).reverse.dropWhile p).reverse

/-- JS `String.prototype.trim` at byte level. -/
def jsTrim : List Nat → List Nat := trimBy jsWS

/-- Byte-lowercase one byte. -/
def lowerB (b : Nat) : Nat := if 65 ≤ b ∧ b ≤ 90 then b + 32 else b

/-- Byte-lowercase a header name, as the platform Headers iterator yields it. -/
def nameKey (n : List Nat) : List Nat := n.map lowerB

/-- Header collection: insertion-ordered (name, value) list. -/
abbrev HeadersL := List (List Nat × List Nat)

/-- Case-insensitive header lookup (`Headers.get`). -/
def headersGet (hs : HeadersL) (k : List Nat) : Option (List Nat) :=
  (hs.find? (fun e => e.1 == nameKey k)).map (fun e => e.2)

/-- `Headers.set`: replace the value if the name is present, else add. -/
def headersSet (hs : HeadersL) (k v : List Nat) : HeadersL :=
  if hs.any (fun e => e.1 == nameKey k) then
    hs.map (fun e => if e.1 == nameKey k then (e.1, v) else e)
  else hs ++ [(nameKey k, v)]

/-- `Headers.append`: combine with `", "` if the name is present, else add. -/
def headersAppend (hs : HeadersL) (k v : List Nat) : HeadersL :=
  if hs.any (fun e => e.1 == nameKey k) then
    hs.map (fun e => if e.1 == nameKey k then (e.1, e.2 ++ [44, 32] ++ v) else e)
  else hs ++ [(nameKey k, v)]

/-! ## Component (a leaf Part) -/

/-- The data of a `Component`: a header collection and a body. -/
structure Comp where
  headers : HeadersL
  body : List Nat
deriving DecidableEq

/-- Serialized header block: each header as `name ": " value CRLF`
(the loop over `headers.entries()` shared by `Component.bytes` and
`Multipart.bytes`). -/
def headerBytes (hs : HeadersL) : List Nat :=
  (hs.map (fun e => e.1 ++ [COLON, SP] ++ e.2 ++ CRLF)).flatten

/-- `Component.bytes`: header block, blank line, body. -/
def compBytes (c : Comp) : List Nat := headerBytes c.headers ++ CRLF ++ c.body

/-- JS `string.split("\r\n")` at byte level. -/
def splitCRLF : List Nat → List (List Nat)
  | [] => [[]]
  | 13 :: 10 :: rest => [] :: splitCRLF rest
  | b :: rest =>
    match splitCRLF rest with
    | [] => [[b]]
    | h :: t => (b :: h) :: t

/-- JS `string.indexOf` of a single byte (first index where `p` holds). -/
def findCharIdx (p : Nat → Bool) : List Nat → Option Nat
  | [] => none
  | b :: rest => if p b then some 0 else (findCharIdx p rest).map (· + 1)

/-- One iteration of the header-line loop in `Component.parse`: split at the
first colon, trim key and value, skip colon-less lines and empty keys. -/
def parseHeaderLine (hs : HeadersL) (line : List Nat) : HeadersL :=
  match findCharIdx (fun b => b == COLON) line with
  | none => hs
  | some ci =>
    let key := jsTrim (line.take ci)
    let value := jsTrim (line.drop (ci + 1))
    if key.length = 0 then hs else headersAppend hs key value

/-- `Component.parse`.  When no `CRLF CRLF` occurs, the `-1` sentinel plus 2
makes the headers end index 1, exactly as in the source. -/
def cparse (data : List Nat) : Comp :=
  let hasHeaders := ! (data[0]? == some CR && data[1]? == some LF)
  let headersEndIndex :=
    if hasHeaders then
      match findSequenceIndex data (CRLF ++ CRLF) 0 with
      | some i => i + 2
      | none => 1
    else 0
  let headersBuffer := data.take headersEndIndex
  let body := data.drop (headersEndIndex + 2)
  ⟨(splitCRLF headersBuffer).foldl parseHeaderLine [], body⟩

/-! ## Header parameter parsing (`Multipart.parseHeaderParams`) -/

/-- JS `Map.set`: insertion-ordered, overwriting an existing key in place. -/
def paramsSet (ps : HeadersL) (k v : List Nat) : HeadersL :=
  if ps.any (fun e => e.1 == k) then
    ps.map (fun e => if e.1 == k then (e.1, v) else e)
  else ps ++ [(k, v)]

/-- JS `Map.get` with exact key match. -/
def paramsGet (ps : HeadersL) (k : List Nat) : Option (List Nat) :=
  (ps.find? (fun e => e.1 == k)).map (fun e => e.2)

/-- State of the character loop in `Multipart.parseHeaderParams`. -/
structure PState where
  params : HeadersL
  currentKey : List Nat
  currentValue : List Nat
  insideQuotes : Bool
  escaping : Bool
  readingKey : Bool
  valueHasBegun : Bool
deriving DecidableEq

/-- Initial parser state. -/
def pInit : PState := ⟨[], [], [], false, false, true, false⟩

/-- Flushing the current pair (the shared body of the `;` branch and the
end-of-input epilogue of `Multipart.parseHeaderParams`). -/
def pFlush (st : PState) : HeadersL :=
  let k := jsTrim st.currentKey
  if k.length > 0 then
    if st.readingKey then paramsSet (paramsSet st.params k []) k st.currentValue
    else paramsSet st.params k st.currentValue
  else st.params

/-- One character step of `Multipart.parseHeaderParams`, mirroring the source
branch for branch. -/
def pStep (st : PState) (c : Nat) : PState :=
  if st.escaping then
    { st with currentValue := st.currentValue ++ [c], escaping := false }
  else if c = 92 then
    (if st.readingKey then st else { st with escaping := true })
  else if c = 34 then
    (if st.readingKey = false then
      (if st.valueHasBegun ∧ st.insideQuotes = false then
        { st with currentValue := st.currentValue ++ [c] }
       else { st with insideQuotes := ! st.insideQuotes, valueHasBegun := true })
     else { st with currentKey := st.currentKey ++ [c] })
  else if c = 59 ∧ st.insideQuotes = false then
    { params := pFlush st, currentKey := [], currentValue := [],
      insideQuotes := false, escaping := st.escaping, readingKey := true,
      valueHasBegun := false }
  else if c = 61 ∧ st.readingKey = true ∧ st.insideQuotes = false then
    { st with readingKey := false }
  else if c = 32 ∧ st.readingKey = false ∧ st.insideQuotes = false ∧
      st.valueHasBegun = false then st
  else if st.readingKey then { st with currentKey := st.currentKey ++ [c] }
  else { st with currentValue := st.currentValue ++ [c], valueHasBegun := true }

/-- `Multipart.parseHeaderParams`. -/
def parseHeaderParams (input : List Nat) : HeadersL :=
  pFlush (input.foldl pStep pInit)

/-- `Multipart.parseContentType`: (media type, boundary parameter). -/
def parseContentType (ct : List Nat) : Option (List Nat) × Option (List Nat) :=
  match findCharIdx (fun b => b == 59) ct with
  | none => (some ct, none)
  | some i =>
    (some (ct.take i), paramsGet (parseHeaderParams (ct.drop (i + 1))) (str "boundary"))

/-! ## Boundary validity and quoting -/

/-- `bchars` of RFC 2046 as checked by `Multipart.isValidBoundary`. -/
def isValidBChar (c : Nat) : Bool :=
  (0x30 ≤ c && c ≤ 0x39) || (0x41 ≤ c && c ≤ 0x5a) || (0x61 ≤ c && c ≤ 0x7a) ||
  c == SP || (0x27 ≤ c && c ≤ 0x29) || (0x2b ≤ c && c ≤ 0x2f) ||
  c == 0x3a || c == 0x3d || c == 0x3f || c == 0x5f

/-- `Multipart.isValidBoundary`. -/
def isValidBoundary (boundary : List Nat) : Bool :=
  if boundary.length < 1 || boundary.length > 70 || boundary.getLast? == some SP then
    false
  else boundary.all isValidBChar

/-- `Multipart.boundaryShouldBeQuoted`, byte class. -/
def quoteTrigger (b : Nat) : Bool :=
  b == HT || b == SP || b == 0x22 || b == 0x28 || b == 0x29 || b == 0x2c || b == 0x2f ||
  (COLON ≤ b && b ≤ 0x40) || (0x5b ≤ b && b ≤ 0x5d) || b == 0x7b || b == 0x7d

/-- `Multipart.boundaryShouldBeQuoted`. -/
def boundaryShouldBeQuoted (boundary : List Nat) : Bool := boundary.any quoteTrigger

/-- JS `replace(/"/g, '\\"')` at byte level. -/
def escapeQuotes (l : List Nat) : List Nat :=
  (l.map (fun b => if b = 34 then [92, 34] else [b])).flatten

/-- The boundary as rendered into the `Content-Type` header by
`Multipart.setHeaders`. -/
def renderBoundary (boundary : List Nat) : List Nat :=
  if boundaryShouldBeQuoted boundary then [34] ++ escapeQuotes boundary ++ [34]
  else boundary

/-- Value of the derived `Content-Type` header set by `Multipart.setHeaders`. -/
def contentTypeValue (mediaType boundary : List Nat) : List Nat :=
  mediaType ++ str "; boundary=" ++ renderBoundary boundary

/-! ## Parts and multiparts -/

/-- A `Part`: either a leaf `Component` or a nested `Multipart` (which also
implements the `Part` interface).  The `multi` constructor carries the fields
of a `Multipart` instance: parts, boundary, media type, and its (derived)
header collection. -/
inductive Part where
  | comp (headers : HeadersL) (body : List Nat)
  | multi (parts : List Part) (boundary : List Nat) (mediaType : List Nat)
      (headers : HeadersL)

/-- The `Multipart` constructor: stores the fields unconditionally (no
validation) and calls `setHeaders`, which sets the derived `Content-Type`
header. -/
def mkMultipart (parts : List Part) (boundary mediaType : List Nat) : Part :=
  Part.multi parts boundary mediaType
    (headersSet [] (str "Content-Type") (contentTypeValue mediaType boundary))

/-- The delimited body assembled by the `Multipart.body` getter from the
parts' serialized forms: for each part `"--" boundary CRLF part CRLF`, then
the closing `"--" boundary "--" CRLF`. -/
def renderBody (boundary : List Nat) (segs : List (List Nat)) : List Nat :=
  (segs.map (fun s => DOUBLE_DASH ++ boundary ++ CRLF ++ s ++ CRLF)).flatten ++
    (DOUBLE_DASH ++ boundary ++ DOUBLE_DASH ++ CRLF)

mutual
/-- `Part#bytes()`: headers, blank line, body.  `none` models a thrown
`RangeError` (an invalid boundary at this level or inside a nested part). -/
def Part.bytesOpt : Part → Option (List Nat)
  | .comp hs b => some (headerBytes hs ++ CRLF ++ b)
  | .multi parts boundary _ hs =>
    if isValidBoundary boundary then
      match Part.partsBytes parts with
      | some segs => some (headerBytes hs ++ CRLF ++ renderBody boundary segs)
      | none => none
    else none
/-- Serialize a list of parts in order; `none` as soon as one throws. -/
def Part.partsBytes : List Part → Option (List (List Nat))
  | [] => some []
  | p :: ps =>
    match Part.bytesOpt p, Part.partsBytes ps with
    | some s, some ss => some (s :: ss)
    | _, _ => none
end

/-- The `Multipart.body` getter: `none` models the `RangeError` thrown when the
boundary is invalid, or an error propagated from serializing a nested part.
On a leaf component it is the stored body (`Component.body`, total). -/
def Part.bodyOpt : Part → Option (List Nat)
  | .comp _ b => some b
  | .multi parts boundary _ _ =>
    if isValidBoundary boundary then
      match Part.partsBytes parts with
      | some segs => some (renderBody boundary segs)
      | none => none
    else none

/-- Boundary field accessor. -/
def Part.boundaryOf : Part → List Nat
  | .comp _ _ => []
  | .multi _ boundary _ _ => boundary

/-- Media type field accessor. -/
def Part.mediaTypeOf : Part → List Nat
  | .comp _ _ => []
  | .multi _ _ mediaType _ => mediaType

/-- Parts field accessor. -/
def Part.partsOf : Part → List Part
  | .comp _ _ => []
  | .multi parts _ _ _ => parts

/-- Headers field accessor. -/
def Part.headersOf : Part → HeadersL
  | .comp hs _ => hs
  | .multi _ _ _ hs => hs

/-- `Multipart#boundary=` setter: store the new boundary, re-run `setHeaders`
on the existing header collection. -/
def Part.setBoundary : Part → List Nat → Part
  | .comp hs b, _ => .comp hs b
  | .multi parts _ mediaType hs, boundary =>
    .multi parts boundary mediaType
      (headersSet hs (str "Content-Type") (contentTypeValue mediaType boundary))

/-- `Multipart#mediaType=` setter. -/
def Part.setMediaType : Part → List Nat → Part
  | .comp hs b, _ => .comp hs b
  | .multi parts boundary _ hs, mediaType =>
    .multi parts boundary mediaType
      (headersSet hs (str "Content-Type") (contentTypeValue mediaType boundary))

/-! ## Body parsing (`Multipart.parseBody`, `parse`, `part`) -/

/-- Fuel-indexed core of the `while` scanning loop in `Multipart.parseBody`:
find a delimiter, find the next (opening, else closing) delimiter, carve the
bytes in between as a part, continue from the next delimiter's start. -/
def pblAux (padded boundary closing : List Nat) :
    Nat → Nat → List (List Nat) → List (List Nat)
  | _, 0, acc => acc
  | start, fuel + 1, acc =>
    if start < padded.length then
      match findBoundaryBounds padded boundary start with
      | none => acc
      | some (_, e) =>
        match (match findBoundaryBounds padded boundary (e + 1) with
               | some r => some r
               | none => findBoundaryBounds padded closing (e + 1)) with
        | none => acc
        | some (nb, _) =>
          pblAux padded boundary closing nb fuel (acc ++ [(padded.drop e).take (nb - e)])
    else acc

/-- `Multipart.parseBody`.  The data is prefixed with an artificial CRLF; the
closing delimiter is `boundary ++ "--"`.  An invalid boundary only triggers a
console warning in the source, with no effect on the result.  The loop fuel
`padded.length + 1` is provably sufficient since the cursor strictly
advances. -/
def parseBody (data boundary : List Nat) (mediaType : Option (List Nat)) : Part :=
  let padded := CRLF ++ data
  let closing := boundary ++ DOUBLE_DASH
  let segs := pblAux padded boundary closing 0 (padded.length + 1) []
  mkMultipart (segs.map (fun s => Part.comp (cparse s).headers (cparse s).body))
    boundary (mediaType.getD (str "multipart/mixed"))

/-- `Multipart.part` on a parsed component, as used by `Multipart.parse`:
`none` models the thrown `SyntaxError` (missing `Content-Type` header, or a
`Content-Type` without a boundary parameter). -/
def partFn (c : Comp) : Option Part :=
  match headersGet c.headers (str "content-type") with
  | none => none
  | some ct =>
    match (parseContentType ct).2 with
    | none => none
    | some boundary => some (parseBody (compBytes c) boundary (parseContentType ct).1)

/-- `Multipart.parse`: parse the data as a component, then `Multipart.part`. -/
def parseFn (data : List Nat) : Option Part := partFn (cparse data)

/-! ## Spec-level predicates (worded as in the specification) -/

/-- The valid-boundary byte class as worded in the spec:
DIGIT / ALPHA / apostrophe ( ) + _ , - . / : = ? and space. -/
def bcharSpec (b : Nat) : Prop :=
  (48 ≤ b ∧ b ≤ 57) ∨ (65 ≤ b ∧ b ≤ 90) ∨ (97 ≤ b ∧ b ≤ 122) ∨
  b = 39 ∨ b = 40 ∨ b = 41 ∨ b = 43 ∨ b = 95 ∨ b = 44 ∨ b = 45 ∨ b = 46 ∨
  b = 47 ∨ b = 58 ∨ b = 61 ∨ b = 63 ∨ b = 32

instance (b : Nat) : Decidable (bcharSpec b) := by
  unfold bcharSpec
  infer_instance

/-- A valid boundary as worded in the spec: 1 to 70 bytes, not ending with a
space, all bytes in the class. -/
def specValidBoundary (B : List Nat) : Prop :=
  1 ≤ B.length ∧ B.length ≤ 70 ∧ B.getLast? ≠ some SP ∧ ∀ b ∈ B, bcharSpec b

instance (B : List Nat) : Decidable (specValidBoundary B) := by
  unfold specValidBoundary
  infer_instance

/-- The quoting-trigger byte class as worded in the spec: horizontal tab,
space, double quote, parentheses, comma, slash, colon through at sign,
bracket through bracket, and the two braces. -/
def quoteTriggerSpec (b : Nat) : Prop :=
  b = HT ∨ b = SP ∨ b = 34 ∨ b = 40 ∨ b = 41 ∨ b = 44 ∨ b = 47 ∨
  (58 ≤ b ∧ b ≤ 64) ∨ (91 ≤ b ∧ b ≤ 93) ∨ b = 123 ∨ b = 125

instance (b : Nat) : Decidable (quoteTriggerSpec b) := by
  unfold quoteTriggerSpec
  infer_instance

theorem isValidBChar_iff (b : Nat) : isValidBChar b = true ↔ bcharSpec b := by
  simp only [isValidBChar, bcharSpec, SP, Bool.or_eq_true, Bool.and_eq_true,
    decide_eq_true_eq, beq_iff_eq]
  omega

theorem quoteTrigger_iff (b : Nat) : quoteTrigger b = true ↔ quoteTriggerSpec b := by
  simp only [quoteTrigger, quoteTriggerSpec, HT, SP, COLON, Bool.or_eq_true,
    Bool.and_eq_true, decide_eq_true_eq, beq_iff_eq]
  omega

theorem isValidBoundary_iff (B : List Nat) :
    isValidBoundary B = true ↔ specValidBoundary B := by
  unfold isValidBoundary specValidBoundary
  by_cases h : (B.length < 1 || B.length > 70 || B.getLast? == some SP) = true
  · rw [if_pos h]
    simp only [Bool.or_eq_true, decide_eq_true_eq, beq_iff_eq] at h
    simp only [Bool.false_eq_true, false_iff]
    intro ⟨c1, c2, c3, _⟩
    rcases h with (h | h) | h
    · omega
    · omega
    · exact c3 h
  · rw [if_neg h]
    simp only [Bool.or_eq_true, decide_eq_true_eq, beq_iff_eq, not_or] at h
    obtain ⟨⟨h1, h2⟩, h3⟩ := h
    simp only [List.all_eq_true]
    constructor
    · intro hall
      exact ⟨by omega, by omega, h3, fun b hb => (isValidBChar_iff b).mp (hall b hb)⟩
    · intro ⟨_, _, _, hall⟩
      exact fun b hb => (isValidBChar_iff b).mpr (hall b hb)

theorem boundaryShouldBeQuoted_iff (B : List Nat) :
    boundaryShouldBeQuoted B = true ↔ ∃ b ∈ B, quoteTriggerSpec b := by
  unfold boundaryShouldBeQuoted
  rw [List.any_eq_true]
  constructor
  · intro ⟨b, hb, hq⟩
    exact ⟨b, hb, (quoteTrigger_iff b).mp hq⟩
  · intro ⟨b, hb, hq⟩
    exact ⟨b, hb, (quoteTrigger_iff b).mpr hq⟩

/-! ## Claim C2: serialization errors and construction totality -/

theorem headersSet_nil (k v : List Nat) : headersSet [] k v = [(nameKey k, v)] := rfl

theorem headersGet_set_nil (k v : List Nat) :
    headersGet (headersSet [] k v) k = some v := by
  simp [headersSet, headersGet]

theorem headersSet_single (k v0 v : List Nat) :
    headersSet [(nameKey k, v0)] k v = [(nameKey k, v)] := by
  simp [headersSet]

theorem headersGet_single (k v : List Nat) :
    headersGet [(nameKey k, v)] k = some v := by
  simp [headersGet]

/-- C2 (amended): for a Multipart whose parts all serialize successfully,
reading `body` (and `bytes()`) throws a `RangeError` exactly when the current
boundary is invalid in the sense of the spec (shorter than 1 byte, longer than
70 bytes, ending with a space, or containing a byte outside the class);
construction stores boundary and media type unconditionally and never
throws. -/
theorem body_throws_iff (parts : List Part) (B mt : List Nat)
    (segs : List (List Nat)) (hsegs : Part.partsBytes parts = some segs) :
    (Part.bodyOpt (mkMultipart parts B mt) = none ↔ ¬ specValidBoundary B) ∧
    (Part.bytesOpt (mkMultipart parts B mt) = none ↔ ¬ specValidBoundary B) ∧
    Part.boundaryOf (mkMultipart parts B mt) = B ∧
    Part.mediaTypeOf (mkMultipart parts B mt) = mt ∧
    Part.partsOf (mkMultipart parts B mt) = parts := by
  unfold mkMultipart
  refine ⟨?_, ?_, rfl, rfl, rfl⟩
  · show (if isValidBoundary B then
        match Part.partsBytes parts with
        | some segs => some (renderBody B segs)
        | none => none
      else none) = none ↔ ¬ specValidBoundary B
    rw [hsegs]
    by_cases hv : isValidBoundary B = true
    · rw [if_pos hv]
      simp [(isValidBoundary_iff B).mp hv]
    · rw [if_neg hv]
      have : ¬ specValidBoundary B := fun hc => hv ((isValidBoundary_iff B).mpr hc)
      simp [this]
  · show (if isValidBoundary B then
        match Part.partsBytes parts with
        | some segs => some (headerBytes
            (headersSet [] (str "Content-Type") (contentTypeValue mt B)) ++
            CRLF ++ renderBody B segs)
        | none => none
      else none) = none ↔ ¬ specValidBoundary B
    rw [hsegs]
    by_cases hv : isValidBoundary B = true
    · rw [if_pos hv]
      simp [(isValidBoundary_iff B).mp hv]
    · rw [if_neg hv]
      have : ¬ specValidBoundary B := fun hc => hv ((isValidBoundary_iff B).mpr hc)
      simp [this]

/-- Witness for C2's theorem at a concrete invalid boundary (a single space). -/
theorem body_throws_iff_witness :
    Part.partsBytes [] = some [] ∧
    (Part.bodyOpt (mkMultipart [] [32] (str "multipart/mixed")) = none ↔
      ¬ specValidBoundary [32]) :=
  ⟨rfl, (body_throws_iff [] [32] (str "multipart/mixed") [] rfl).1⟩

/-- C2 counterexample: a Multipart with a perfectly valid boundary whose
`body` read still throws, because one of its parts is a nested Multipart with
an invalid boundary (ends with a space).  So "throws exactly when the current
boundary is invalid" fails as stated. -/
theorem body_throws_cex :
    Part.bodyOpt (mkMultipart [mkMultipart [] [97, 32] [109]] [98] [109]) = none ∧
    specValidBoundary
      (Part.boundaryOf (mkMultipart [mkMultipart [] [97, 32] [109]] [98] [109])) := by
  constructor
  · rfl
  · decide

/-! ## Claim C5: the derived Content-Type header -/

/-- C5: after construction and after each setter, the stored `Content-Type`
header value is `mediaType ++ "; boundary=" ++ B`, where `B` is the boundary
wrapped in double quotes with internal quotes backslash-escaped precisely when
some byte is in the quoting class, and the bare boundary otherwise. -/
theorem contentType_header_derived (parts : List Part) (B mt B2 mt2 : List Nat) :
    (headersGet (Part.headersOf (mkMultipart parts B mt)) (str "Content-Type") =
      some (mt ++ str "; boundary=" ++
        (if boundaryShouldBeQuoted B then [34] ++ escapeQuotes B ++ [34] else B))) ∧
    (headersGet (Part.headersOf (Part.setBoundary (mkMultipart parts B mt) B2))
        (str "Content-Type") =
      some (mt ++ str "; boundary=" ++
        (if boundaryShouldBeQuoted B2 then [34] ++ escapeQuotes B2 ++ [34] else B2))) ∧
    (headersGet (Part.headersOf (Part.setMediaType (mkMultipart parts B mt) mt2))
        (str "Content-Type") =
      some (mt2 ++ str "; boundary=" ++
        (if boundaryShouldBeQuoted B then [34] ++ escapeQuotes B ++ [34] else B))) ∧
    (boundaryShouldBeQuoted B = true ↔ ∃ b ∈ B, quoteTriggerSpec b) := by
  refine ⟨?_, ?_, ?_, boundaryShouldBeQuoted_iff B⟩
  · show headersGet (headersSet [] (str "Content-Type") (contentTypeValue mt B))
        (str "Content-Type") = _
    rw [headersGet_set_nil]
    rw [contentTypeValue, renderBoundary]
  · show headersGet (headersSet
        (headersSet [] (str "Content-Type") (contentTypeValue mt B))
        (str "Content-Type") (contentTypeValue mt B2)) (str "Content-Type") = _
    rw [headersSet_nil, headersSet_single, headersGet_single]
    rw [contentTypeValue, renderBoundary]
  · show headersGet (headersSet
        (headersSet [] (str "Content-Type") (contentTypeValue mt B))
        (str "Content-Type") (contentTypeValue mt2 B)) (str "Content-Type") = _
    rw [headersSet_nil, headersSet_single, headersGet_single]
    rw [contentTypeValue, renderBoundary]

/-! ## Claim C3: SyntaxError conditions of `Multipart.parse` -/

/-- C3: `Multipart.parse` (through `Multipart.part`) throws a `SyntaxError`
exactly when the parsed part has no `Content-Type` header (case-insensitive
lookup) or that header yields no boundary parameter; otherwise it returns a
Multipart without raising. -/
theorem parse_throws_iff (data : List Nat) :
    parseFn data = none ↔
      (headersGet (cparse data).headers (str "content-type") = none ∨
       ∃ ct, headersGet (cparse data).headers (str "content-type") = some ct ∧
         (parseContentType ct).2 = none) := by
  unfold parseFn partFn
  cases hg : headersGet (cparse data).headers (str "content-type") with
  | none => simp [hg]
  | some ct =>
    cases hb : (parseContentType ct).2 with
    | none => simp [hb]
    | some b => simp [hb]

/-! ## Claim C4: totality of `Multipart.parseBody` -/

/-- C4: `parseBody` never throws: it returns a Multipart whose boundary and
media type are the passed ones (the boundary validity check only warns), and
when no boundary delimiter is found in the (CRLF-prefixed) data it returns a
Multipart with zero parts. -/
theorem parseBody_total_and_empty (data B : List Nat) (mt : Option (List Nat)) :
    Part.boundaryOf (parseBody data B mt) = B ∧
    Part.mediaTypeOf (parseBody data B mt) = mt.getD (str "multipart/mixed") ∧
    (findBoundaryBounds (CRLF ++ data) B 0 = none →
      Part.partsOf (parseBody data B mt) = []) := by
  refine ⟨rfl, rfl, ?_⟩
  intro h
  have hloop : pblAux (CRLF ++ data) B (B ++ DOUBLE_DASH) 0
      ((CRLF ++ data).length + 1) [] = [] := by
    unfold pblAux
    rw [if_pos (by simp [CRLF]), h]
  show Part.partsOf (mkMultipart ((pblAux (CRLF ++ data) B (B ++ DOUBLE_DASH) 0
      ((CRLF ++ data).length + 1) []).map
        (fun s => Part.comp (cparse s).headers (cparse s).body))
      B (mt.getD (str "multipart/mixed"))) = []
  rw [hloop]
  rfl

/-- Witness for C4 at concrete data with no delimiter and an invalid boundary
(a lone space), which only warns: the result has zero parts. -/
theorem parseBody_total_and_empty_witness :
    findBoundaryBounds (CRLF ++ [120]) [32] 0 = none ∧
    isValidBoundary [32] = false ∧
    Part.partsOf (parseBody [120] [32] none) = [] :=
  ⟨by decide, by decide,
    (parseBody_total_and_empty [120] [32] none).2.2 (by decide)⟩

/-! ## Claim C9: the scanner and the scanning loop always advance -/

/-- C9: a found sequence index is at or after the search start, so the
false-positive recovery resume point (2 past the candidate start) is strictly
beyond the previous search start; a found boundary delimiter starts at or
after the search start and ends strictly later; and in the `parseBody` loop
the next delimiter's start is strictly beyond the current cursor, so the loop
terminates. -/
theorem scanner_advances :
    (∀ (data seq : List Nat) (start i : Nat),
        findSequenceIndex data seq start = some i → start < i + 2) ∧
    (∀ (data B : List Nat) (start b e : Nat),
        findBoundaryBounds data B start = some (b, e) →
          start ≤ b ∧ b + B.length + 6 ≤ e ∧ e ≤ data.length) ∧
    (∀ (padded B closing : List Nat) (start x e nb y : Nat),
        findBoundaryBounds padded B start = some (x, e) →
        (match findBoundaryBounds padded B (e + 1) with
         | some r => some r
         | none => findBoundaryBounds padded closing (e + 1)) = some (nb, y) →
        start < nb) := by
  refine ⟨?_, ?_, ?_⟩
  · intro data seq start i h
    have := (findSequenceIndex_le h).1
    omega
  · intro data B start b e h
    exact findBoundaryBounds_some h
  · intro padded B closing start x e nb y h1 h2
    have hb1 := findBoundaryBounds_some h1
    cases hnext : findBoundaryBounds padded B (e + 1) with
    | some r =>
      rw [hnext] at h2
      cases h2
      have := findBoundaryBounds_some hnext
      omega
    | none =>
      rw [hnext] at h2
      dsimp only at h2
      have := findBoundaryBounds_some h2
      omega

/-- Witness for C9 at a concrete buffer holding two delimiters. -/
theorem scanner_advances_witness :
    (0 : Nat) < 0 + 2 ∧ (0 ≤ 0 ∧ 0 + 1 + 6 ≤ 7 ∧ 7 ≤ 17) ∧ (0 : Nat) < 8 := by
  refine ⟨?_, ?_, ?_⟩
  · exact scanner_advances.1 [13, 10, 45, 45, 98] [13, 10] 0 0 (by decide)
  · exact scanner_advances.2.1 [13, 10, 45, 45, 98, 13, 10, 120, 13, 10, 45, 45,
      98, 45, 45, 13, 10] [98] 0 0 7 (by decide)
  · exact scanner_advances.2.2 [13, 10, 45, 45, 98, 13, 10, 120, 13, 10, 45, 45,
      98, 45, 45, 13, 10] [98] ([98] ++ DOUBLE_DASH) 0 0 7 8 17 (by decide) (by decide)

/-! ## Claim C10: parsing header-less data with no blank line -/

/-- Bounded check that `seq` occurs nowhere in `l`. -/
def hasOccurrence (seq l : List Nat) : Bool :=
  (List.range l.length).any (fun p => matchAt l seq p)

theorem matchAt_oob {data seq : List Nat} {k : Nat} (hne : seq ≠ [])
    (hk : data.length < k + seq.length) : matchAt data seq k = false := by
  unfold matchAt
  rw [beq_eq_false_iff_ne]
  intro hc
  have hlen := congrArg List.length hc
  simp only [List.length_take, List.length_drop] at hlen
  have : seq.length ≠ 0 := fun h0 => hne (List.eq_nil_of_length_eq_zero h0)
  omega

theorem hasOccurrence_false_matchAt {seq l : List Nat} (hne : seq ≠ [])
    (h : hasOccurrence seq l = false) : ∀ p, matchAt l seq p = false := by
  intro p
  by_cases hp : p < l.length
  · unfold hasOccurrence at h
    rw [List.any_eq_false] at h
    exact Bool.eq_false_iff.mpr (h p (List.mem_range.mpr hp))
  · have : seq.length ≠ 0 := fun h0 => hne (List.eq_nil_of_length_eq_zero h0)
    exact matchAt_oob hne (by omega)

theorem splitCRLF_single (b : Nat) : splitCRLF [b] = [[b]] := by
  by_cases hb : b = 13
  · subst hb
    rfl
  · simp [splitCRLF, hb]

/-- C10: on data whose first two bytes are not CRLF and which contains no
CRLF CRLF, `Component.parse` yields no headers and a body equal to the data
from offset 3 on (the `-1` sentinel plus 2 selects index 1, and the body skips
two more bytes). -/
theorem parse_headerless (data : List Nat)
    (h1 : ¬ (data[0]? = some CR ∧ data[1]? = some LF))
    (h2 : hasOccurrence (CRLF ++ CRLF) data = false) :
    (cparse data).headers = [] ∧ (cparse data).body = data.drop 3 := by
  have hfind : findSequenceIndex data (CRLF ++ CRLF) 0 = none :=
    findSequenceIndex_eq_none
      (fun k _ _ => hasOccurrence_false_matchAt (by decide) h2 k)
  have hhh : (data[0]? == some CR && data[1]? == some LF) = false := by
    simp only [← Bool.not_eq_true, Bool.and_eq_true, beq_iff_eq]
    exact h1
  have hsplit : (splitCRLF (data.take 1)).foldl parseHeaderLine [] = [] := by
    cases data with
    | nil => rfl
    | cons b rest =>
      show (splitCRLF [b]).foldl parseHeaderLine [] = []
      rw [splitCRLF_single]
      show parseHeaderLine [] [b] = []
      by_cases hb : b = 58
      · subst hb
        rfl
      · have hbe : (b == COLON) = false := by
          simp only [COLON, beq_eq_false_iff_ne, ne_eq]
          exact hb
        simp [parseHeaderLine, findCharIdx, hbe]
  unfold cparse
  rw [hhh, hfind]
  exact ⟨hsplit, rfl⟩

/-- Witness for C10 at concrete data. -/
theorem parse_headerless_witness :
    (¬ (([97, 98, 99, 100, 101] : List Nat)[0]? = some CR ∧
        ([97, 98, 99, 100, 101] : List Nat)[1]? = some LF)) ∧
    hasOccurrence (CRLF ++ CRLF) [97, 98, 99, 100, 101] = false ∧
    (cparse [97, 98, 99, 100, 101]).headers = [] ∧
    (cparse [97, 98, 99, 100, 101]).body = [100, 101] :=
  ⟨by decide, by decide,
    (parse_headerless [97, 98, 99, 100, 101] (by decide) (by decide)).1,
    (parse_headerless [97, 98, 99, 100, 101] (by decide) (by decide)).2⟩

/-! ## Claim C6: delimiter recognition, padding tolerance, false positives -/

theorem fbb_oob {data B : List Nat} {start : Nat} (h : data.length ≤ start) :
    findBoundaryBounds data B start = none := by
  unfold findBoundaryBounds
  cases hf : data.length + 1 - start with
  | zero => rfl
  | succ n =>
    unfold fbbAux
    rw [if_pos h]

/-- One unfolding of `findBoundaryBounds` (with the fuel bookkeeping hidden). -/
theorem fbb_step (data B : List Nat) (start : Nat) (h : start < data.length) :
    findBoundaryBounds data B start =
      match findSequenceIndex data (CRLF ++ DOUBLE_DASH ++ B) start with
      | none => none
      | some bsi =>
        match scanAux data (bsi + B.length + 4)
            (data.length - (bsi + B.length + 4)) with
        | .term e => some (bsi, e)
        | .reject => findBoundaryBounds data B (bsi + 2)
        | .offEnd => none := by
  show fbbAux data B start (data.length + 1 - start) = _
  rw [show data.length + 1 - start = (data.length - start) + 1 from by omega]
  unfold fbbAux
  rw [if_neg (by omega)]
  cases hfs : findSequenceIndex data (CRLF ++ DOUBLE_DASH ++ B) start with
  | none => rfl
  | some bsi =>
    dsimp only
    cases hsc : scanAux data (bsi + B.length + 4)
        (data.length - (bsi + B.length + 4)) with
    | term e => rfl
    | offEnd => rfl
    | reject =>
      obtain ⟨hle, hilen, _, _⟩ := findSequenceIndex_le hfs
      show fbbAux data B (bsi + 2) (data.length - start) =
        fbbAux data B (bsi + 2) (data.length + 1 - (bsi + 2))
      exact fbbAux_fuel data B (data.length - start)
        (data.length + 1 - (bsi + 2)) (bsi + 2) (by omega) (by omega)

/-- C6: when `CRLF "--" boundary` is found at `i` and is followed by a run of
space/tab padding closed by a CRLF at `j`, the delimiter is recognized with
bounds `(i, j + 2)`; when the byte after the padding run neither pads nor
starts a CRLF, the candidate is rejected and the search resumes exactly 2
bytes past the candidate start, so look-alike text inside a part's content is
never treated as a delimiter. -/
theorem boundary_delimiter_recognition (data B : List Nat) (start i j : Nat) :
    (findSequenceIndex data (CRLF ++ DOUBLE_DASH ++ B) start = some i →
     i + B.length + 4 ≤ j →
     (∀ k, i + B.length + 4 ≤ k → k < j → data[k]? = some SP ∨ data[k]? = some HT) →
     data[j]? = some CR → data[j + 1]? = some LF →
     findBoundaryBounds data B start = some (i, j + 2)) ∧
    (∀ b : Nat,
     findSequenceIndex data (CRLF ++ DOUBLE_DASH ++ B) start = some i →
     i + B.length + 4 ≤ j →
     (∀ k, i + B.length + 4 ≤ k → k < j → data[k]? = some SP ∨ data[k]? = some HT) →
     data[j]? = some b → b ≠ SP → b ≠ HT → ¬ (b = CR ∧ data[j + 1]? = some LF) →
     findBoundaryBounds data B start = findBoundaryBounds data B (i + 2)) := by
  constructor
  · intro hfs hij hpad hcr hlf
    obtain ⟨hle, hilen, _, _⟩ := findSequenceIndex_le hfs
    rw [fbb_step data B start (by omega), hfs]
    dsimp only
    rw [scanAux_run_term data _ _ j rfl hij hpad hcr hlf]
  · intro b hfs hij hpad hb hsp hht hcrlf
    obtain ⟨hle, hilen, _, _⟩ := findSequenceIndex_le hfs
    rw [fbb_step data B start (by omega), hfs]
    dsimp only
    rw [scanAux_run_reject data _ _ j b rfl hij hpad hb hsp hht hcrlf]

/-- Witness for C6: a delimiter with trailing space and tab is accepted with
the right bounds; boundary text followed by ` fake` is rejected and the search
resumes at index 2. -/
theorem boundary_delimiter_recognition_witness :
    findBoundaryBounds [13, 10, 45, 45, 98, 32, 9, 13, 10, 114] [98] 0 =
      some (0, 9) ∧
    findBoundaryBounds
      [13, 10, 45, 45, 98, 32, 102, 97, 107, 101, 13, 10, 13, 10, 45, 45, 98, 13, 10]
      [98] 0 =
    findBoundaryBounds
      [13, 10, 45, 45, 98, 32, 102, 97, 107, 101, 13, 10, 13, 10, 45, 45, 98, 13, 10]
      [98] 2 :=
  ⟨(boundary_delimiter_recognition [13, 10, 45, 45, 98, 32, 9, 13, 10, 114]
      [98] 0 0 7).1 (by decide) (by decide)
      (by intro k h1 h2
          simp only [List.length_cons, List.length_nil] at h1
          rcases (show k = 5 ∨ k = 6 by omega) with rfl | rfl <;> decide)
      (by decide) (by decide),
   (boundary_delimiter_recognition
      [13, 10, 45, 45, 98, 32, 102, 97, 107, 101, 13, 10, 13, 10, 45, 45, 98, 13, 10]
      [98] 0 0 6).2 102 (by decide) (by decide)
      (by intro k h1 h2
          simp only [List.length_cons, List.length_nil] at h1
          rcases (show k = 5 by omega) with rfl
          decide)
      (by decide) (by decide) (by decide) (by decide)⟩

/-! ## Claim C8: leading spaces of a parameter value -/

theorem pStep_key (ps : HeadersL) :
    ∀ (k : List Nat) (k0 : List Nat),
      (∀ b ∈ k, b ≠ 34 ∧ b ≠ 59 ∧ b ≠ 61 ∧ b ≠ 92) →
      List.foldl pStep ⟨ps, k0, [], false, false, true, false⟩ k =
        ⟨ps, k0 ++ k, [], false, false, true, false⟩ := by
  intro k
  induction k with
  | nil => intro k0 _; simp
  | cons c t ih =>
    intro k0 hk
    obtain ⟨h34, h59, h61, h92⟩ := hk c (List.mem_cons_self c t)
    have hstep : pStep ⟨ps, k0, [], false, false, true, false⟩ c =
        ⟨ps, k0 ++ [c], [], false, false, true, false⟩ := by
      simp [pStep, h34, h59, h61, h92]
    rw [List.foldl_cons, hstep, ih (k0 ++ [c])
      (fun b hb => hk b (List.mem_cons_of_mem c hb))]
    simp

theorem pStep_eq_switch (ps : HeadersL) (k : List Nat) :
    pStep ⟨ps, k, [], false, false, true, false⟩ 61 =
      ⟨ps, k, [], false, false, false, false⟩ := by
  simp [pStep]

theorem pStep_spaces (ps : HeadersL) (k : List Nat) :
    ∀ n : Nat,
      List.foldl pStep ⟨ps, k, [], false, false, false, false⟩
        (List.replicate n 32) = ⟨ps, k, [], false, false, false, false⟩ := by
  intro n
  induction n with
  | zero => rfl
  | succ m ih =>
    rw [List.replicate_succ, List.foldl_cons]
    have hstep : pStep ⟨ps, k, [], false, false, false, false⟩ 32 =
        ⟨ps, k, [], false, false, false, false⟩ := by
      simp [pStep]
    rw [hstep, ih]

theorem pStep_first_value (ps : HeadersL) (k : List Nat) (c : Nat)
    (hc : c ≠ 32 ∧ c ≠ 34 ∧ c ≠ 59 ∧ c ≠ 61 ∧ c ≠ 92) :
    pStep ⟨ps, k, [], false, false, false, false⟩ c =
      ⟨ps, k, [c], false, false, false, true⟩ := by
  obtain ⟨h32, h34, h59, h61, h92⟩ := hc
  simp [pStep, h32, h34, h59, h61, h92]

theorem pStep_value (ps : HeadersL) (k : List Nat) :
    ∀ (t v : List Nat), (∀ b ∈ t, b ≠ 34 ∧ b ≠ 59 ∧ b ≠ 92) →
      List.foldl pStep ⟨ps, k, v, false, false, false, true⟩ t =
        ⟨ps, k, v ++ t, false, false, false, true⟩ := by
  intro t
  induction t with
  | nil => intro v _; simp
  | cons c r ih =>
    intro v ht
    obtain ⟨h34, h59, h92⟩ := ht c (List.mem_cons_self c r)
    have hstep : pStep ⟨ps, k, v, false, false, false, true⟩ c =
        ⟨ps, k, v ++ [c], false, false, false, true⟩ := by
      simp [pStep, h34, h59, h92]
    rw [List.foldl_cons, hstep, ih (v ++ [c])
      (fun b hb => ht b (List.mem_cons_of_mem c hb))]
    simp

theorem pFlush_value (ps : HeadersL) (k v : List Nat) (hk : jsTrim k ≠ []) :
    pFlush ⟨ps, k, v, false, false, false, true⟩ = paramsSet ps (jsTrim k) v := by
  unfold pFlush
  rw [if_pos]
  · rfl
  · show 0 < (jsTrim k).length
    exact List.length_pos.mpr hk

/-- C8: in `parseHeaderParams`, space characters after the `=` of a pair and
before any value content are excluded from the resulting value (any number `n`
of them), while spaces occurring after value content has begun (inside `rest`)
are preserved verbatim in the value. -/
theorem headerParams_value_spaces (k : List Nat) (n : Nat) (c : Nat)
    (rest : List Nat)
    (hk : ∀ b ∈ k, b ≠ 34 ∧ b ≠ 59 ∧ b ≠ 61 ∧ b ≠ 92)
    (hktrim : jsTrim k ≠ [])
    (hc : c ≠ 32 ∧ c ≠ 34 ∧ c ≠ 59 ∧ c ≠ 61 ∧ c ≠ 92)
    (hrest : ∀ b ∈ rest, b ≠ 34 ∧ b ≠ 59 ∧ b ≠ 92) :
    parseHeaderParams (k ++ [61] ++ List.replicate n 32 ++ (c :: rest)) =
      [(jsTrim k, c :: rest)] := by
  unfold parseHeaderParams pInit
  rw [List.foldl_append, List.foldl_append, List.foldl_append]
  rw [pStep_key [] k [] hk]
  rw [show ([] : List Nat) ++ k = k from by simp]
  rw [show List.foldl pStep ⟨[], k, [], false, false, true, false⟩ [61] =
    pStep ⟨[], k, [], false, false, true, false⟩ 61 from rfl]
  rw [pStep_eq_switch, pStep_spaces, List.foldl_cons, pStep_first_value [] k c hc]
  rw [pStep_value [] k rest [c] hrest]
  rw [pFlush_value [] k ([c] ++ rest) hktrim]
  rfl

/-- Witness for C8: two leading spaces are dropped; the interior space of the
value `b c` is preserved. -/
theorem headerParams_value_spaces_witness :
    parseHeaderParams ([97] ++ [61] ++ List.replicate 2 32 ++ (98 :: [32, 99])) =
      [([97], [98, 32, 99])] :=
  headerParams_value_spaces [97] 2 98 [32, 99] (by decide) (by decide) (by decide)
    (by decide)

/-! ## Claim C7: Component parse/serialize round trip -/

/-- Header name well-formedness guaranteed by the platform Headers
collaborator (names are nonempty tokens; iteration yields them lowercased),
expressed over the stored entries: nonempty, lowercase-invariant,
trim-invariant, and free of colon, CR and LF. -/
def headerKeyWF (k : List Nat) : Prop :=
  k ≠ [] ∧ nameKey k = k ∧ jsTrim k = k ∧ ∀ b ∈ k, b ≠ COLON ∧ b ≠ CR ∧ b ≠ LF

/-- Header value well-formedness: free of CR and LF, and unchanged by
trimming (no leading or trailing whitespace). -/
def headerValWF (v : List Nat) : Prop :=
  jsTrim v = v ∧ ∀ b ∈ v, b ≠ CR ∧ b ≠ LF

/-- Well-formed header collection: every entry well formed, names pairwise
distinct (the platform iterator never yields duplicate names). -/
def headersWF (hs : HeadersL) : Prop :=
  (∀ e ∈ hs, headerKeyWF e.1 ∧ headerValWF e.2) ∧
  hs.Pairwise (fun a b => a.1 ≠ b.1)

theorem findSeqAux_none_imp {data seq : List Nat} :
    ∀ {i fuel : Nat}, findSeqAux data seq i fuel = none →
      ∀ k, i ≤ k → k < i + fuel → matchAt data seq k = false := by
  intro i fuel
  induction fuel generalizing i with
  | zero => intro _ k h1 h2; omega
  | succ f ih =>
    intro h k h1 h2
    by_cases hm : matchAt data seq i
    · simp [findSeqAux, hm] at h
    · simp only [findSeqAux, hm, Bool.false_eq_true, if_false] at h
      rcases Nat.eq_or_lt_of_le h1 with rfl | hlt
      · exact Bool.eq_false_iff.mpr hm
      · exact ih h k hlt (by omega)

theorem findSequenceIndex_none_forall {data seq : List Nat} {s : Nat}
    (h : findSequenceIndex data seq s = none) :
    ∀ k, s ≤ k → k < data.length → matchAt data seq k = false := by
  intro k h1 h2
  unfold findSequenceIndex at h
  by_cases hs : s < data.length
  · rw [if_pos hs] at h
    exact findSeqAux_none_imp h k h1 (by omega)
  · omega

theorem findSequenceIndex_congr_start {data seq : List Nat} {s1 s2 : Nat}
    (h12 : s1 ≤ s2) (hs2 : s2 ≤ data.length)
    (hno : ∀ k, s1 ≤ k → k < s2 → matchAt data seq k = false) :
    findSequenceIndex data seq s1 = findSequenceIndex data seq s2 := by
  cases hres : findSequenceIndex data seq s2 with
  | some j =>
    obtain ⟨hj1, hj2, hj3, hj4⟩ := findSequenceIndex_le hres
    exact findSequenceIndex_eq_some (by omega) hj2 hj3
      (fun k hk1 hk2 => by
        by_cases hk : k < s2
        · exact hno k hk1 hk
        · exact hj4 k (by omega) hk2)
  | none =>
    apply findSequenceIndex_eq_none
    intro k hk1 hk2
    by_cases hk : k < s2
    · exact hno k hk1 hk
    · exact findSequenceIndex_none_forall hres k (by omega) hk2

theorem matchAt_getElem {data seq : List Nat} {p : Nat}
    (h : matchAt data seq p = true) :
    ∀ idx, idx < seq.length → data[p + idx]? = seq[idx]? := by
  intro idx hidx
  unfold matchAt at h
  rw [beq_iff_eq] at h
  have hcong := congrArg (fun l => l[idx]?) h
  dsimp only at hcong
  rw [List.getElem?_take] at hcong
  rw [if_pos hidx, List.getElem?_drop] at hcong
  exact hcong

theorem matchAt_here (pre seq rest : List Nat) :
    matchAt (pre ++ (seq ++ rest)) seq pre.length = true := by
  have := matchAt_shift pre (seq ++ rest) seq 0
  rw [Nat.add_zero] at this
  rw [this]
  unfold matchAt
  rw [List.drop_zero, beq_iff_eq]
  exact List.take_left seq rest

theorem headerBytes_cons (e : List Nat × List Nat) (t : HeadersL) :
    headerBytes (e :: t) =
      (e.1 ++ [COLON, SP] ++ e.2 ++ CRLF) ++ headerBytes t := by
  simp [headerBytes]

theorem headerBytes_head {hs : HeadersL}
    (h : ∀ e ∈ hs, e.1 ≠ [] ∧ (∀ b ∈ e.1, b ≠ CR)) (hne : hs ≠ []) :
    ∃ b, (headerBytes hs)[0]? = some b ∧ b ≠ CR := by
  cases hs with
  | nil => exact absurd rfl hne
  | cons e t =>
    obtain ⟨hk, hkcr⟩ := h e (List.mem_cons_self e t)
    rw [headerBytes_cons]
    cases hk0 : e.1 with
    | nil => exact absurd hk0 hk
    | cons b k' =>
      refine ⟨b, ?_, ?_⟩
      · simp [hk0]
      · exact hkcr b (hk0 ▸ List.mem_cons_self b k')

theorem headerBytes_length {hs : HeadersL} (hne : hs ≠ []) :
    2 ≤ (headerBytes hs).length := by
  cases hs with
  | nil => exact absurd rfl hne
  | cons e t =>
    rw [headerBytes_cons]
    simp [CRLF]
    omega

theorem matchAt_false_of_ne {data seq : List Nat} {k idx : Nat}
    (hidx : idx < seq.length) (hne : data[k + idx]? ≠ seq[idx]?) :
    matchAt data seq k = false := by
  rw [Bool.eq_false_iff]
  intro hm
  exact hne (matchAt_getElem hm idx hidx)

theorem no_CR_no_match {raw rest : List Nat} (hcr : ∀ b ∈ raw, b ≠ CR) {k : Nat}
    (hk : k < raw.length) : matchAt (raw ++ rest) (CRLF ++ CRLF) k = false := by
  apply @matchAt_false_of_ne _ _ _ 0 (by decide)
  rw [Nat.add_zero, List.getElem?_append_left hk]
  intro hc
  have hmem : (13 : Nat) ∈ raw := List.getElem?_mem hc
  exact hcr 13 hmem rfl

/-- The first `CRLF CRLF` in a serialized header block followed by a blank
line sits exactly at the end of the block. -/
theorem hdr_sep (body : List Nat) :
    ∀ hs : HeadersL,
      (∀ e ∈ hs, e.1 ≠ [] ∧ (∀ b ∈ e.1, b ≠ CR) ∧ (∀ b ∈ e.2, b ≠ CR)) →
      hs ≠ [] →
      findSequenceIndex (headerBytes hs ++ (CRLF ++ body)) (CRLF ++ CRLF) 0 =
        some ((headerBytes hs).length - 2) := by
  intro hs
  induction hs with
  | nil => intro _ hne; exact absurd rfl hne
  | cons e t ih =>
    intro hwf _
    obtain ⟨hk, hkcr, hvcr⟩ := hwf e (List.mem_cons_self e t)
    have hraw_cr : ∀ b ∈ e.1 ++ [COLON, SP] ++ e.2, b ≠ CR := by
      intro b hb
      simp only [List.mem_append, List.mem_cons, List.not_mem_nil, or_false,
        List.mem_singleton] at hb
      rcases hb with (hb | hb) | hb
      · exact hkcr b hb
      · rcases hb with rfl | rfl <;> decide
      · exact hvcr b hb
    cases t with
    | nil =>
      have hshape : headerBytes [e] ++ (CRLF ++ body) =
          (e.1 ++ [COLON, SP] ++ e.2) ++ ((CRLF ++ CRLF) ++ body) := by
        rw [headerBytes_cons]
        show ((e.1 ++ [COLON, SP] ++ e.2 ++ CRLF) ++ []) ++ (CRLF ++ body) = _
        simp [CRLF]
      have hlen : (headerBytes [e]).length - 2 =
          (e.1 ++ [COLON, SP] ++ e.2).length := by
        rw [headerBytes_cons]
        show ((e.1 ++ [COLON, SP] ++ e.2 ++ CRLF) ++ []).length - 2 = _
        simp [CRLF]
        omega
      rw [hshape, hlen]
      apply findSequenceIndex_eq_some (Nat.zero_le _)
      · simp only [List.length_append, CRLF, List.length_cons, List.length_nil]
        omega
      · exact matchAt_here _ _ _
      · intro k _ hk
        exact no_CR_no_match hraw_cr hk
    | cons e2 t2 =>
      have hwft : ∀ x ∈ e2 :: t2, x.1 ≠ [] ∧ (∀ b ∈ x.1, b ≠ CR) ∧
          (∀ b ∈ x.2, b ≠ CR) :=
        fun x hx => hwf x (List.mem_cons_of_mem e hx)
      have hIH := ih hwft (by simp)
      have hDhead := headerBytes_head
        (fun x hx => ⟨(hwft x hx).1, (hwft x hx).2.1⟩) (List.cons_ne_nil e2 t2)
      obtain ⟨b0, hb0, hb0ne⟩ := hDhead
      have hDlen := @headerBytes_length (e2 :: t2) (List.cons_ne_nil e2 t2)
      have hshape : headerBytes (e :: e2 :: t2) ++ (CRLF ++ body) =
          ((e.1 ++ [COLON, SP] ++ e.2) ++ CRLF) ++
            (headerBytes (e2 :: t2) ++ (CRLF ++ body)) := by
        rw [headerBytes_cons]
        simp [List.append_assoc]
      set raw := e.1 ++ [COLON, SP] ++ e.2 with hraw
      set lnE := raw ++ CRLF with hline
      set D := headerBytes (e2 :: t2) ++ (CRLF ++ body) with hD
      rw [hshape]
      have hnoearly : ∀ k, 0 ≤ k → k < lnE.length →
          matchAt (lnE ++ D) (CRLF ++ CRLF) k = false := by
        intro k _ hkline
        have hlinelen : lnE.length = raw.length + 2 := by
          simp [hline, CRLF]
        by_cases hk1 : k < raw.length
        · have : lnE ++ D = raw ++ (CRLF ++ D) := by
            simp [hline, List.append_assoc]
          rw [this]
          exact no_CR_no_match hraw_cr hk1
        · by_cases hk2 : k = raw.length
          · subst hk2
            apply @matchAt_false_of_ne _ _ _ 2 (by decide)
            have hstep : (lnE ++ D)[raw.length + 2]? = D[0]? := by
              rw [List.getElem?_append_right (by omega)]
              congr 1
              omega
            have hD0 : D[0]? = some b0 := by
              rw [hD, List.getElem?_append_left (by omega)]
              exact hb0
            rw [hstep, hD0]
            have hseq2 : ((CRLF ++ CRLF : List Nat))[2]? = some 13 := by decide
            rw [hseq2]
            intro hc
            exact hb0ne (Option.some_inj.mp hc)
          · have hk3 : k = raw.length + 1 := by omega
            subst hk3
            apply @matchAt_false_of_ne _ _ _ 0 (by decide)
            rw [Nat.add_zero, List.getElem?_append_left (by omega)]
            have hlf : lnE[raw.length + 1]? = some LF := by
              rw [hline, List.getElem?_append_right (by omega)]
              have h1 : raw.length + 1 - raw.length = 1 := by omega
              rw [h1]
              decide
            rw [hlf]
            decide
      rw [findSequenceIndex_congr_start (Nat.zero_le lnE.length)
        (by simp) hnoearly]
      rw [findSequenceIndex_shift lnE D (CRLF ++ CRLF) lnE.length (Nat.le_refl _)]
      rw [Nat.sub_self, hIH]
      show some (lnE.length + ((headerBytes (e2 :: t2)).length - 2)) = _
      have hlen2 : (headerBytes (e :: e2 :: t2)).length =
          lnE.length + (headerBytes (e2 :: t2)).length := by
        rw [headerBytes_cons]
        simp [hline, hraw, CRLF]
        omega
      rw [hlen2]
      congr 1
      omega

theorem splitCRLF_append (l r : List Nat) (h : 13 ∉ l) :
    splitCRLF (l ++ (13 :: 10 :: r)) = l :: splitCRLF r := by
  induction l with
  | nil => rfl
  | cons b t ih =>
    have hb : b ≠ 13 := by
      intro hc
      exact h (hc ▸ List.mem_cons_self b t)
    have ht : 13 ∉ t := fun hc => h (List.mem_cons_of_mem b hc)
    simp only [List.cons_append]
    rw [splitCRLF]
    · rw [ih ht]
    · intro rest hc _
      exact absurd hc hb

theorem splitCRLF_headerBytes :
    ∀ hs : HeadersL,
      (∀ e ∈ hs, (∀ b ∈ e.1, b ≠ CR) ∧ (∀ b ∈ e.2, b ≠ CR)) →
      splitCRLF (headerBytes hs) =
        hs.map (fun e => e.1 ++ [COLON, SP] ++ e.2) ++ [[]] := by
  intro hs
  induction hs with
  | nil => intro _; rfl
  | cons e t ih =>
    intro hwf
    obtain ⟨hkcr, hvcr⟩ := hwf e (List.mem_cons_self e t)
    have hrawcr : (13 : Nat) ∉ (e.1 ++ [COLON, SP] ++ e.2) := by
      intro hmem
      simp only [List.mem_append, List.mem_cons, List.not_mem_nil, or_false,
        List.mem_singleton] at hmem
      rcases hmem with (hmem | hmem) | hmem
      · exact hkcr 13 hmem rfl
      · rcases hmem with h58 | h32
        · exact absurd h58 (by decide)
        · exact absurd h32 (by decide)
      · exact hvcr 13 hmem rfl
    rw [headerBytes_cons]
    have hshape : (e.1 ++ [COLON, SP] ++ e.2 ++ CRLF) ++ headerBytes t =
        (e.1 ++ [COLON, SP] ++ e.2) ++ (13 :: 10 :: headerBytes t) := by
      simp [CRLF, CR, LF]
    rw [hshape, splitCRLF_append _ _ hrawcr,
      ih (fun x hx => hwf x (List.mem_cons_of_mem e hx))]
    simp

theorem jsTrim_cons_space (v : List Nat) : jsTrim (32 :: v) = jsTrim v := by
  unfold jsTrim trimBy
  rw [List.dropWhile_cons_of_pos (by decide)]

theorem findCharIdx_colon (v : List Nat) :
    ∀ k : List Nat, (∀ b ∈ k, b ≠ COLON) →
      findCharIdx (fun b => b == COLON) (k ++ (COLON :: SP :: v)) =
        some k.length := by
  intro k
  induction k with
  | nil =>
    intro _
    simp [findCharIdx]
  | cons c t ih =>
    intro hk
    have hc : (c == COLON) = false := by
      rw [beq_eq_false_iff_ne]
      exact hk c (List.mem_cons_self c t)
    simp only [List.cons_append, findCharIdx, hc, Bool.false_eq_true, if_false,
      List.append_eq]
    rw [ih (fun b hb => hk b (List.mem_cons_of_mem c hb))]
    rfl

theorem parseHeaderLine_line (acc : HeadersL) (k v : List Nat)
    (hkne : k ≠ []) (hkkey : nameKey k = k) (hktrim : jsTrim k = k)
    (hkcolon : ∀ b ∈ k, b ≠ COLON) (hvtrim : jsTrim v = v)
    (hfresh : ∀ a ∈ acc, a.1 ≠ k) :
    parseHeaderLine acc (k ++ [COLON, SP] ++ v) = acc ++ [(k, v)] := by
  unfold parseHeaderLine
  have happ : k ++ [COLON, SP] ++ v = k ++ (COLON :: SP :: v) := by simp
  rw [happ, findCharIdx_colon v k hkcolon]
  have htake : (k ++ (COLON :: SP :: v)).take k.length = k := List.take_left k _
  have hdrop : (k ++ (COLON :: SP :: v)).drop (k.length + 1) = SP :: v := by
    rw [List.drop_append 1]
    rfl
  dsimp only
  rw [htake, hdrop, hktrim]
  rw [show (SP : Nat) = 32 from rfl, jsTrim_cons_space, hvtrim]
  rw [if_neg (by simp [List.length_eq_zero]; exact hkne)]
  unfold headersAppend
  rw [hkkey]
  have hany : acc.any (fun e => e.1 == k) = false := by
    rw [List.any_eq_false]
    intro a ha
    simp only [beq_iff_eq]
    exact hfresh a ha
  rw [if_neg (by rw [hany]; exact Bool.false_ne_true)]

theorem parse_lines :
    ∀ (hs acc : HeadersL), headersWF hs →
      (∀ e ∈ hs, ∀ a ∈ acc, a.1 ≠ e.1) →
      List.foldl parseHeaderLine acc
        (hs.map (fun e => e.1 ++ [COLON, SP] ++ e.2)) = acc ++ hs := by
  intro hs
  induction hs with
  | nil => intro acc _ _; simp
  | cons e t ih =>
    intro acc hwf hfresh
    obtain ⟨hprops, hpair⟩ := hwf
    obtain ⟨⟨hkne, hkkey, hktrim, hkbytes⟩, hvtrim, _⟩ :=
      hprops e (List.mem_cons_self e t)
    rw [List.map_cons, List.foldl_cons]
    rw [parseHeaderLine_line acc e.1 e.2 hkne hkkey hktrim
      (fun b hb => (hkbytes b hb).1) hvtrim
      (fun a ha => hfresh e (List.mem_cons_self e t) a ha)]
    have hpc := List.pairwise_cons.mp hpair
    rw [ih (acc ++ [(e.1, e.2)])
      ⟨fun x hx => hprops x (List.mem_cons_of_mem e hx), hpc.2⟩
      (by
        intro x hx a ha
        rcases List.mem_append.mp ha with ha | ha
        · exact hfresh x (List.mem_cons_of_mem e hx) a ha
        · have : a = (e.1, e.2) := by simpa using ha
          subst this
          exact hpc.1 x hx)]
    simp

/-- `Component.parse` inverts serialization on a well-formed component. -/
theorem cparse_compBytes (hs : HeadersL) (body : List Nat) (h : headersWF hs) :
    cparse (compBytes ⟨hs, body⟩) = ⟨hs, body⟩ := by
  obtain ⟨hprops, hpair⟩ := h
  cases hs with
  | nil =>
    unfold cparse compBytes
    simp [headerBytes, CRLF, CR, LF, splitCRLF, parseHeaderLine, findCharIdx]
  | cons e t =>
    have hne : (e :: t) ≠ [] := List.cons_ne_nil e t
    have hwfcr : ∀ x ∈ e :: t, x.1 ≠ [] ∧ (∀ b ∈ x.1, b ≠ CR) ∧
        (∀ b ∈ x.2, b ≠ CR) := by
      intro x hx
      obtain ⟨⟨hx1, _, _, hx4⟩, _, hx6⟩ := hprops x hx
      exact ⟨hx1, fun b hb => (hx4 b hb).2.1, fun b hb => (hx6 b hb).1⟩
    have hdata : compBytes ⟨e :: t, body⟩ =
        headerBytes (e :: t) ++ (CRLF ++ body) := by
      simp [compBytes]
    have hfind := hdr_sep body (e :: t) hwfcr hne
    have hHlen := headerBytes_length hne
    obtain ⟨⟨hkne, hkkey, hktrim, hkbytes⟩, _, _⟩ :=
      hprops e (List.mem_cons_self e t)
    have hfirst : ∃ b0, (headerBytes (e :: t) ++ (CRLF ++ body))[0]? = some b0 ∧
        b0 ≠ CR := by
      obtain ⟨b0, hb0, hb0cr⟩ := headerBytes_head
        (fun x hx => ⟨(hwfcr x hx).1, (hwfcr x hx).2.1⟩) hne
      exact ⟨b0, by rw [List.getElem?_append_left (by omega)]; exact hb0, hb0cr⟩
    obtain ⟨b0, hb0, hb0cr⟩ := hfirst
    have hhead : ((headerBytes (e :: t) ++ (CRLF ++ body))[0]? == some CR &&
        (headerBytes (e :: t) ++ (CRLF ++ body))[1]? == some LF) = false := by
      rw [hb0]
      have : (some b0 == some CR) = false := by
        simp only [beq_eq_false_iff_ne, ne_eq, Option.some_inj]
        exact hb0cr
      rw [this, Bool.false_and]
    unfold cparse
    rw [hdata, hhead, hfind]
    show Comp.mk
      ((splitCRLF ((headerBytes (e :: t) ++ (CRLF ++ body)).take
        ((headerBytes (e :: t)).length - 2 + 2))).foldl parseHeaderLine [])
      ((headerBytes (e :: t) ++ (CRLF ++ body)).drop
        ((headerBytes (e :: t)).length - 2 + 2 + 2)) = Comp.mk (e :: t) body
    have hidx : (headerBytes (e :: t)).length - 2 + 2 =
        (headerBytes (e :: t)).length := by omega
    rw [hidx, List.take_left]
    have hdropbody : (headerBytes (e :: t) ++ (CRLF ++ body)).drop
        ((headerBytes (e :: t)).length + 2) = body := by
      rw [List.drop_append 2]
      rfl
    rw [hdropbody]
    have hsplit := splitCRLF_headerBytes (e :: t)
      (fun x hx => ⟨(hwfcr x hx).2.1, (hwfcr x hx).2.2⟩)
    rw [hsplit, List.foldl_append]
    rw [parse_lines (e :: t) [] ⟨hprops, hpair⟩ (by intro x _ a ha; simp at ha)]
    rfl

/-- C7 counterexample: a Part whose single header value starts with a vertical
tab (byte 11).  The platform Headers collaborator accepts and stores such a
value unchanged (vertical tab is not HTTP whitespace), its serialized bytes
contain no CRLF and its key no colon, yet `Component.parse` trims the vertical
tab, so the reserialized bytes differ. -/
theorem comp_roundtrip_cex :
    compBytes (cparse (compBytes ⟨[([107], [11, 118])], []⟩)) ≠
      compBytes ⟨[([107], [11, 118])], []⟩ := by decide

/-- C7 (amended): for every Part whose header names are platform-valid
(nonempty, lowercase- and trim-invariant, free of colon/CR/LF, pairwise
distinct) and whose header values contain no CR/LF and, additionally, no
leading or trailing whitespace, `Component.parse(p.bytes()).bytes()` equals
`p.bytes()` byte for byte. -/
theorem comp_roundtrip (hs : HeadersL) (body : List Nat) (h : headersWF hs) :
    compBytes (cparse (compBytes ⟨hs, body⟩)) = compBytes ⟨hs, body⟩ := by
  rw [cparse_compBytes hs body h]

instance (k : List Nat) : Decidable (headerKeyWF k) := by
  unfold headerKeyWF
  infer_instance

instance (v : List Nat) : Decidable (headerValWF v) := by
  unfold headerValWF
  infer_instance

instance (hs : HeadersL) : Decidable (headersWF hs) := by
  unfold headersWF
  infer_instance

/-- Witness for C7's amended theorem on a concrete two-header part. -/
theorem comp_roundtrip_witness :
    headersWF [([107], [118]), ([120, 121], [119, 32, 119])] ∧
    compBytes (cparse (compBytes ⟨[([107], [118]), ([120, 121], [119, 32, 119])],
        [104, 105]⟩)) =
      compBytes ⟨[([107], [118]), ([120, 121], [119, 32, 119])], [104, 105]⟩ :=
  ⟨by decide, comp_roundtrip [([107], [118]), ([120, 121], [119, 32, 119])]
    [104, 105] (by decide)⟩

/-! ## Claim C1: the Multipart round trip.

First, byte-class facts about valid boundaries and the recovery of the
boundary from the generated `Content-Type` value. -/

theorem validB_byte {B : List Nat} (hB : isValidBoundary B = true) {b : Nat}
    (hb : b ∈ B) : bcharSpec b :=
  ((isValidBoundary_iff B).mp hB).2.2.2 b hb

theorem bcharSpec_facts {b : Nat} (h : bcharSpec b) :
    b ≠ 13 ∧ b ≠ 10 ∧ b ≠ 34 ∧ b ≠ 92 ∧ b ≠ 59 ∧ b ≠ 9 ∧ b ≠ 11 ∧ b ≠ 12 := by
  unfold bcharSpec at h
  omega

theorem jsWS_false {b : Nat} (h : b ≠ 9 ∧ b ≠ 10 ∧ b ≠ 11 ∧ b ≠ 12 ∧
    b ≠ 13 ∧ b ≠ 32) : jsWS b = false := by
  simp only [jsWS, Bool.or_eq_false_iff, beq_eq_false_iff_ne, ne_eq]
  omega

theorem quoteTrigger_false_facts {b : Nat} (h : quoteTrigger b = false) :
    b ≠ 32 ∧ b ≠ 34 ∧ b ≠ 59 ∧ b ≠ 61 ∧ b ≠ 92 := by
  simp only [quoteTrigger, HT, SP, COLON, Bool.or_eq_false_iff,
    beq_eq_false_iff_ne, ne_eq, Bool.and_eq_false_iff, decide_eq_false_iff_not,
    not_le] at h
  omega

theorem jsTrim_eq_self {l : List Nat}
    (h1 : ∀ b, l.head? = some b → jsWS b = false)
    (h2 : ∀ b, l.getLast? = some b → jsWS b = false) : jsTrim l = l := by
  have hd : ∀ (m : List Nat), (∀ b, m.head? = some b → jsWS b = false) →
      m.dropWhile jsWS = m := by
    intro m hm
    cases m with
    | nil => rfl
    | cons a t =>
      have := hm a rfl
      rw [List.dropWhile_cons_of_neg (by rw [this]; exact Bool.false_ne_true)]
  unfold jsTrim trimBy
  rw [hd l h1]
  rw [hd l.reverse (by
    intro b hb
    rw [List.head?_reverse] at hb
    exact h2 b hb)]
  exact List.reverse_reverse l

theorem escapeQuotes_id {l : List Nat} (h : (34 : Nat) ∉ l) :
    escapeQuotes l = l := by
  induction l with
  | nil => rfl
  | cons b t ih =>
    have hb : b ≠ 34 := fun hc => h (hc ▸ List.mem_cons_self b t)
    unfold escapeQuotes
    simp only [List.map_cons, List.flatten_cons]
    rw [if_neg hb]
    have := ih (fun hc => h (List.mem_cons_of_mem b hc))
    unfold escapeQuotes at this
    rw [this]
    rfl

theorem findCharIdx_first (p : Nat → Bool) (x : Nat) (r : List Nat)
    (hx : p x = true) :
    ∀ l, (∀ b ∈ l, p b = false) → findCharIdx p (l ++ (x :: r)) = some l.length := by
  intro l
  induction l with
  | nil =>
    intro _
    simp [findCharIdx, hx]
  | cons c t ih =>
    intro hl
    have hc : p c = false := hl c (List.mem_cons_self c t)
    simp only [List.cons_append, findCharIdx, hc, Bool.false_eq_true, if_false,
      List.append_eq]
    rw [ih (fun b hb => hl b (List.mem_cons_of_mem c hb))]
    rfl

theorem pStep_open_quote (ps : HeadersL) (k : List Nat) :
    pStep ⟨ps, k, [], false, false, false, false⟩ 34 =
      ⟨ps, k, [], true, false, false, true⟩ := by
  simp [pStep]

theorem pStep_quoted (ps : HeadersL) (k : List Nat) :
    ∀ (t v : List Nat), (∀ b ∈ t, b ≠ 34 ∧ b ≠ 92) →
      List.foldl pStep ⟨ps, k, v, true, false, false, true⟩ t =
        ⟨ps, k, v ++ t, true, false, false, true⟩ := by
  intro t
  induction t with
  | nil => intro v _; simp
  | cons c r ih =>
    intro v ht
    obtain ⟨h34, h92⟩ := ht c (List.mem_cons_self c r)
    have hstep : pStep ⟨ps, k, v, true, false, false, true⟩ c =
        ⟨ps, k, v ++ [c], true, false, false, true⟩ := by
      simp [pStep, h34, h92]
    rw [List.foldl_cons, hstep, ih (v ++ [c])
      (fun b hb => ht b (List.mem_cons_of_mem c hb))]
    simp

theorem pStep_close_quote (ps : HeadersL) (k v : List Nat) :
    pStep ⟨ps, k, v, true, false, false, true⟩ 34 =
      ⟨ps, k, v, false, false, false, true⟩ := by
  simp [pStep]

/-- A quoted parameter value: the quotes delimit, inner bytes are preserved. -/
theorem headerParams_quoted (k v : List Nat)
    (hk : ∀ b ∈ k, b ≠ 34 ∧ b ≠ 59 ∧ b ≠ 61 ∧ b ≠ 92) (hktrim : jsTrim k ≠ [])
    (hv : ∀ b ∈ v, b ≠ 34 ∧ b ≠ 92) :
    parseHeaderParams (k ++ [61] ++ ([34] ++ v ++ [34])) = [(jsTrim k, v)] := by
  have hgroup : k ++ [61] ++ ([34] ++ v ++ [34]) =
      k ++ ([61] ++ (34 :: (v ++ [34]))) := by simp
  rw [hgroup]
  unfold parseHeaderParams pInit
  rw [List.foldl_append pStep _ k ([61] ++ (34 :: (v ++ [34])))]
  rw [pStep_key [] k [] hk]
  rw [show ([] : List Nat) ++ k = k from by simp]
  rw [List.foldl_append pStep _ [61] (34 :: (v ++ [34]))]
  rw [show List.foldl pStep ⟨[], k, [], false, false, true, false⟩ [61] =
    pStep ⟨[], k, [], false, false, true, false⟩ 61 from rfl]
  rw [pStep_eq_switch]
  rw [List.foldl_cons, pStep_open_quote]
  rw [List.foldl_append pStep _ v [34]]
  rw [pStep_quoted [] k v [] hv]
  rw [show List.foldl pStep ⟨[], k, [] ++ v, true, false, false, true⟩ [34] =
    pStep ⟨[], k, [] ++ v, true, false, false, true⟩ 34 from rfl]
  rw [pStep_close_quote, pFlush_value [] k ([] ++ v) hktrim]
  rfl

theorem boundary_bytes_plain {B : List Nat} (hB : isValidBoundary B = true)
    (hq : boundaryShouldBeQuoted B = false) :
    ∀ b ∈ B, b ≠ 32 ∧ b ≠ 34 ∧ b ≠ 59 ∧ b ≠ 61 ∧ b ≠ 92 := by
  intro b hb
  unfold boundaryShouldBeQuoted at hq
  rw [List.any_eq_false] at hq
  exact quoteTrigger_false_facts (Bool.eq_false_iff.mpr (hq b hb))

/-- Recovering media type and boundary from the generated Content-Type
value. -/
theorem parseContentType_value (mt B : List Nat) (hB : isValidBoundary B = true)
    (hsemi : ∀ b ∈ mt, b ≠ 59) :
    parseContentType (contentTypeValue mt B) = (some mt, some B) := by
  have hstr1 : str "; boundary=" = 59 :: 32 :: str "boundary=" := by decide
  have hstr2 : str "boundary=" = str "boundary" ++ [61] := by decide
  have hshape : contentTypeValue mt B =
      mt ++ (59 :: (32 :: (str "boundary=" ++ renderBoundary B))) := by
    unfold contentTypeValue
    rw [hstr1]
    simp
  unfold parseContentType
  rw [hshape]
  rw [findCharIdx_first (fun b => b == 59) 59 _ rfl mt
    (fun b hb => beq_eq_false_iff_ne.mpr (hsemi b hb))]
  dsimp only
  rw [List.take_left, List.drop_append 1]
  have hdrop1 : (59 :: (32 :: (str "boundary=" ++ renderBoundary B))).drop 1 =
      32 :: (str "boundary=" ++ renderBoundary B) := rfl
  rw [hdrop1]
  have hk0 : (32 :: (str "boundary=" ++ renderBoundary B)) =
      (32 :: str "boundary") ++ [61] ++ renderBoundary B := by
    rw [hstr2]
    simp
  rw [hk0]
  have hBne : B ≠ [] := by
    have := ((isValidBoundary_iff B).mp hB).1
    intro hc
    subst hc
    simp at this
  have hktrimne : jsTrim (32 :: str "boundary") ≠ [] := by decide
  have hkplain : ∀ b ∈ (32 :: str "boundary"),
      b ≠ 34 ∧ b ≠ 59 ∧ b ≠ 61 ∧ b ≠ 92 := by decide
  have hjk : jsTrim (32 :: str "boundary") = str "boundary" := by decide
  unfold renderBoundary
  cases hq : boundaryShouldBeQuoted B with
  | false =>
    cases B with
    | nil => exact absurd rfl hBne
    | cons c rest =>
      have hplain := boundary_bytes_plain hB hq
      have hrw : (32 :: str "boundary") ++ [61] ++ (c :: rest) =
          (32 :: str "boundary") ++ [61] ++ List.replicate 0 32 ++ (c :: rest) := by
        simp
      rw [if_neg Bool.false_ne_true, hrw,
        headerParams_value_spaces (32 :: str "boundary") 0 c rest hkplain hktrimne
          (by
            obtain ⟨p1, p2, p3, p4, p5⟩ := hplain c (List.mem_cons_self c rest)
            exact ⟨p1, p2, p3, p4, p5⟩)
          (fun b hb => by
            obtain ⟨p1, p2, p3, p4, p5⟩ := hplain b (List.mem_cons_of_mem c hb)
            exact ⟨p2, p3, p5⟩)]
      rw [hjk]
      simp [paramsGet]
  | true =>
    have h34 : (34 : Nat) ∉ B := by
      intro hc
      exact (bcharSpec_facts (validB_byte hB hc)).2.2.1 rfl
    rw [if_pos rfl]
    rw [escapeQuotes_id h34]
    have hgrp : (32 :: str "boundary") ++ [61] ++ ([34] ++ B ++ [34]) =
        (32 :: str "boundary") ++ [61] ++ ([34] ++ B ++ [34]) := rfl
    rw [headerParams_quoted (32 :: str "boundary") B hkplain hktrimne
      (fun b hb =>
        ⟨(bcharSpec_facts (validB_byte hB hb)).2.2.1,
         (bcharSpec_facts (validB_byte hB hb)).2.2.2.1⟩)]
    rw [hjk]
    simp [paramsGet]

/-! ### The delimited-tail structure of a rendered multipart body -/

/-- The needle `CRLF ++ "--" ++ boundary` composed inside
`findBoundaryBounds`. -/
def Ndelim (B : List Nat) : List Nat := CRLF ++ DOUBLE_DASH ++ B

/-- The closing delimiter line `CRLF "--" boundary "--" CRLF`. -/
def Tclose (B : List Nat) : List Nat :=
  CRLF ++ DOUBLE_DASH ++ B ++ DOUBLE_DASH ++ CRLF

/-- The tail of a CRLF-prefixed rendered body from the next delimiter on:
one `CRLF "--" boundary CRLF segment` block per remaining segment, then the
closing delimiter line. -/
def Tlist (B : List Nat) : List (List Nat) → List Nat
  | [] => Tclose B
  | s :: rest => CRLF ++ DOUBLE_DASH ++ B ++ CRLF ++ s ++ Tlist B rest

theorem Ndelim_length (B : List Nat) : (Ndelim B).length = B.length + 4 := by
  simp [Ndelim, CRLF, DOUBLE_DASH]

theorem CRLF_renderBody (B : List Nat) :
    ∀ segs, CRLF ++ renderBody B segs = Tlist B segs := by
  intro segs
  induction segs with
  | nil => simp [renderBody, Tlist, Tclose]
  | cons s rest ih =>
    show CRLF ++ renderBody B (s :: rest) = CRLF ++ DOUBLE_DASH ++ B ++ CRLF ++ s ++ Tlist B rest
    rw [← ih]
    simp [renderBody]

theorem Tclose_decomp (B : List Nat) :
    Tclose B = Ndelim B ++ (DOUBLE_DASH ++ CRLF) := by
  simp [Tclose, Ndelim]

theorem Tlist_cons_decomp (B s : List Nat) (rest : List (List Nat)) :
    Tlist B (s :: rest) = Ndelim B ++ (CRLF ++ (s ++ Tlist B rest)) := by
  simp [Tlist, Ndelim]

theorem Tclose_length (B : List Nat) : (Tclose B).length = B.length + 8 := by
  simp [Tclose, CRLF, DOUBLE_DASH]

theorem Tlist_length_ge (B : List Nat) :
    ∀ segs, B.length + 8 ≤ (Tlist B segs).length := by
  intro segs
  induction segs with
  | nil => rw [show Tlist B [] = Tclose B from rfl, Tclose_length]
  | cons s rest ih =>
    rw [Tlist_cons_decomp]
    simp only [List.length_append, Ndelim_length]
    have : 0 ≤ s.length := Nat.zero_le _
    simp [CRLF] at ih ⊢
    omega

theorem Tlist_head (B : List Nat) (segs : List (List Nat)) :
    (Tlist B segs)[0]? = some 13 := by
  cases segs <;> rfl

theorem Tlist_take (B : List Nat) (segs : List (List Nat)) :
    (Tlist B segs).take (Ndelim B).length = Ndelim B := by
  cases segs with
  | nil =>
    rw [show Tlist B [] = Tclose B from rfl, Tclose_decomp]
    exact List.take_left _ _
  | cons s rest =>
    rw [Tlist_cons_decomp]
    exact List.take_left _ _

theorem Ndelim_interior {Bx : List Nat} (hcr : ∀ b ∈ Bx, b ≠ 13) :
    ∀ k, 1 ≤ k → (Ndelim Bx)[k]? ≠ some 13 := by
  have hshape : Ndelim Bx = 13 :: 10 :: 45 :: 45 :: Bx := by
    simp [Ndelim, CRLF, DOUBLE_DASH, CR, LF, DASH]
  intro k hk
  rw [hshape]
  match k, hk with
  | 1, _ => simp
  | 2, _ => simp
  | 3, _ => simp
  | (k4 + 4), _ =>
    show (13 :: 10 :: 45 :: 45 :: Bx)[k4 + 4]? ≠ some 13
    simp only [List.getElem?_cons_succ]
    intro hc
    exact hcr 13 (List.getElem?_mem hc) rfl

theorem matchAt_le_length {l seq : List Nat} {p : Nat} (hne : seq ≠ [])
    (h : matchAt l seq p = true) : p + seq.length ≤ l.length := by
  unfold matchAt at h
  rw [beq_iff_eq] at h
  have hlen := congrArg List.length h
  simp only [List.length_take, List.length_drop] at hlen
  have hpos : 0 < seq.length := List.length_pos.mpr hne
  rw [Nat.min_def] at hlen
  split at hlen <;> omega

theorem matchAt_left {l r seq : List Nat} {p : Nat}
    (h : p + seq.length ≤ l.length) :
    matchAt (l ++ r) seq p = matchAt l seq p := by
  unfold matchAt
  rw [List.drop_append_of_le_length (by omega)]
  rw [List.take_append_of_le_length (by rw [List.length_drop]; omega)]

theorem matchAt_prefix {l s t : List Nat} {p : Nat}
    (h : matchAt l (s ++ t) p = true) : matchAt l s p = true := by
  unfold matchAt at h ⊢
  rw [beq_iff_eq] at h ⊢
  have := congrArg (List.take s.length) h
  rw [List.take_take, List.take_append_of_le_length (Nat.le_refl _),
    List.take_length] at this
  simp only [List.length_append] at this
  rw [Nat.min_def] at this
  split at this
  · exact this
  · omega

/-- An occurrence of the needle in `l ++ r` cannot straddle the border when
`r` begins with a CR and the needle has no interior CR. -/
theorem match_in_append {l r seq : List Nat}
    (hseqCR : ∀ k, 1 ≤ k → seq[k]? ≠ some 13) (hr0 : r[0]? = some 13)
    {p : Nat} (hm : matchAt (l ++ r) seq p = true) :
    p + seq.length ≤ l.length ∨ l.length ≤ p := by
  by_contra hcon
  push_neg at hcon
  obtain ⟨h1, h2⟩ := hcon
  have hidx : l.length - p < seq.length := by omega
  have hidx1 : 1 ≤ l.length - p := by omega
  have := matchAt_getElem hm (l.length - p) hidx
  rw [show p + (l.length - p) = l.length from by omega] at this
  rw [List.getElem?_append_right (Nat.le_refl _)] at this
  rw [Nat.sub_self] at this
  rw [hr0] at this
  exact hseqCR (l.length - p) hidx1 this.symm

theorem Tclose_CR_pos {B : List Nat} (hcr : ∀ b ∈ B, b ≠ 13) :
    ∀ off, (Tclose B)[off]? = some 13 → off = 0 ∨ off = B.length + 6 := by
  have hshape : Tclose B = 13 :: 10 :: 45 :: 45 :: (B ++ [45, 45, 13, 10]) := by
    simp [Tclose, CRLF, DOUBLE_DASH, CR, LF, DASH]
  intro off h
  rw [hshape] at h
  match off with
  | 0 => exact Or.inl rfl
  | 1 => simp at h
  | 2 => simp at h
  | 3 => simp at h
  | (k + 4) =>
    simp only [List.getElem?_cons_succ] at h
    by_cases hk : k < B.length
    · rw [List.getElem?_append_left hk] at h
      exact absurd rfl (hcr 13 (List.getElem?_mem h))
    · rw [List.getElem?_append_right (by omega)] at h
      have hj : k - B.length = 0 ∨ k - B.length = 1 ∨ k - B.length = 2 ∨
          k - B.length = 3 ∨ 4 ≤ k - B.length := by omega
      rcases hj with hj | hj | hj | hj | hj
      · rw [hj] at h; simp at h
      · rw [hj] at h; simp at h
      · right; omega
      · rw [hj] at h; simp at h
      · rw [List.getElem?_eq_none (by simp; omega)] at h
        simp at h

theorem Tclose_no_match {B Bn : List Nat} (hcr : ∀ b ∈ B, b ≠ 13)
    (hn : B.length ≤ Bn.length) :
    ∀ off, 2 ≤ off → matchAt (Tclose B) (Ndelim Bn) off = false := by
  intro off hoff
  rw [Bool.eq_false_iff]
  intro hm
  have h0 := matchAt_getElem hm 0 (by rw [Ndelim_length]; omega)
  rw [Nat.add_zero] at h0
  have hcrpos := Tclose_CR_pos hcr off (by rw [h0]; rfl)
  rcases hcrpos with rfl | rfl
  · omega
  · have := matchAt_le_length (by simp [Ndelim, CRLF, DOUBLE_DASH]) hm
    rw [Ndelim_length, Tclose_length] at this
    omega

theorem Ndelim_ne (B : List Nat) : Ndelim B ≠ [] := by
  simp [Ndelim, CRLF, DOUBLE_DASH]

theorem Tclose_at4 (B : List Nat) : (Tclose B)[B.length + 4]? = some 45 := by
  rw [Tclose_decomp, List.getElem?_append_right (by rw [Ndelim_length]),
    Ndelim_length, Nat.sub_self]
  rfl

theorem Tclose_at6 (B : List Nat) : (Tclose B)[B.length + 6]? = some 13 := by
  rw [Tclose_decomp, List.getElem?_append_right (by rw [Ndelim_length]; omega),
    Ndelim_length, show B.length + 6 - (B.length + 4) = 2 from by omega]
  rfl

theorem Tclose_at7 (B : List Nat) : (Tclose B)[B.length + 7]? = some 10 := by
  rw [Tclose_decomp, List.getElem?_append_right (by rw [Ndelim_length]; omega),
    Ndelim_length, show B.length + 7 - (B.length + 4) = 3 from by omega]
  rfl

theorem Tlist_cons_at4 (B s : List Nat) (rest : List (List Nat)) :
    (Tlist B (s :: rest))[B.length + 4]? = some 13 := by
  rw [Tlist_cons_decomp, List.getElem?_append_right (by rw [Ndelim_length]),
    Ndelim_length, Nat.sub_self]
  rfl

theorem Tlist_cons_at5 (B s : List Nat) (rest : List (List Nat)) :
    (Tlist B (s :: rest))[B.length + 5]? = some 10 := by
  rw [Tlist_cons_decomp, List.getElem?_append_right (by rw [Ndelim_length]; omega),
    Ndelim_length, show B.length + 5 - (B.length + 4) = 1 from by omega]
  simp [CRLF, LF]

theorem Tlist_length_ge_count (B : List Nat) :
    ∀ segs : List (List Nat), segs.length + 1 ≤ (Tlist B segs).length := by
  intro segs
  induction segs with
  | nil =>
    rw [show Tlist B [] = Tclose B from rfl, Tclose_length]
    simp only [List.length_nil]
    omega
  | cons s rest ih =>
    rw [Tlist_cons_decomp]
    have hc : (CRLF : List Nat).length = 2 := rfl
    simp only [List.length_append, Ndelim_length, List.length_cons, hc]
    omega

theorem seg_no_match {B s T : List Nat} (hBcr : ∀ b ∈ B, b ≠ 13)
    (hT0 : T[0]? = some 13) (hocc : hasOccurrence (Ndelim B) s = false) :
    ∀ m, m < s.length → matchAt (s ++ T) (Ndelim B) m = false := by
  intro m hm
  rw [Bool.eq_false_iff]
  intro hmt
  rcases match_in_append (Ndelim_interior hBcr) hT0 hmt with h1 | h2
  · rw [matchAt_left h1] at hmt
    rw [hasOccurrence_false_matchAt (Ndelim_ne B) hocc m] at hmt
    exact Bool.false_ne_true hmt
  · omega

theorem seg_no_match_close {B s T : List Nat} (hBcr : ∀ b ∈ B, b ≠ 13)
    (hT0 : T[0]? = some 13) (hocc : hasOccurrence (Ndelim B) s = false) :
    ∀ m, m < s.length →
      matchAt (s ++ T) (CRLF ++ DOUBLE_DASH ++ (B ++ DOUBLE_DASH)) m = false := by
  intro m hm
  rw [Bool.eq_false_iff]
  intro hmt
  have hre : CRLF ++ DOUBLE_DASH ++ (B ++ DOUBLE_DASH) =
      Ndelim B ++ DOUBLE_DASH := by simp [Ndelim]
  rw [hre] at hmt
  have hpre := matchAt_prefix hmt
  rw [seg_no_match hBcr hT0 hocc m hm] at hpre
  exact Bool.false_ne_true hpre

theorem fbb_none_of_no_match {data B : List Nat} {start : Nat}
    (h : ∀ k, start ≤ k → k < data.length →
      matchAt data (CRLF ++ DOUBLE_DASH ++ B) k = false) :
    findBoundaryBounds data B start = none := by
  by_cases hs : start < data.length
  · rw [fbb_step data B start hs, findSequenceIndex_eq_none h]
  · exact fbb_oob (by omega)

theorem map_id_of_mem {α : Type} {l : List α} {f : α → α}
    (h : ∀ a ∈ l, f a = a) : l.map f = l := by
  induction l with
  | nil => rfl
  | cons a t ih =>
    simp only [List.map_cons]
    rw [h a (List.mem_cons_self a t), ih (fun x hx => h x (List.mem_cons_of_mem a hx))]

theorem bytesOpt_len (p : Part) (s : List Nat) (h : Part.bytesOpt p = some s) :
    1 ≤ s.length := by
  cases p with
  | comp hs b =>
    unfold Part.bytesOpt at h
    rw [Option.some_inj] at h
    subst h
    have hc : (CRLF : List Nat).length = 2 := rfl
    simp only [List.length_append, hc]
    omega
  | multi parts boundary mt hs =>
    unfold Part.bytesOpt at h
    by_cases hv : isValidBoundary boundary = true
    · rw [if_pos hv] at h
      cases hpb : Part.partsBytes parts with
      | none => rw [hpb] at h; simp at h
      | some segs =>
        rw [hpb] at h
        dsimp only at h
        rw [Option.some_inj] at h
        subst h
        have hc : (CRLF : List Nat).length = 2 := rfl
        simp only [List.length_append, hc]
        omega
    · rw [if_neg hv] at h
      simp at h

theorem partsBytes_mem_len :
    ∀ (ps : List Part) (segs : List (List Nat)),
      Part.partsBytes ps = some segs → ∀ s ∈ segs, 1 ≤ s.length := by
  intro ps
  induction ps with
  | nil =>
    intro segs h s hs
    unfold Part.partsBytes at h
    rw [Option.some_inj] at h
    subst h
    simp at hs
  | cons p t ih =>
    intro segs h s hs
    unfold Part.partsBytes at h
    cases hb : Part.bytesOpt p with
    | none =>
      rw [hb] at h
      dsimp only at h
      simp at h
    | some sb =>
      cases ht : Part.partsBytes t with
      | none =>
        rw [hb, ht] at h
        dsimp only at h
        simp at h
      | some st =>
        rw [hb, ht] at h
        dsimp only at h
        rw [Option.some_inj] at h
        subst h
        rcases List.mem_cons.mp hs with rfl | hs2
        · exact bytesOpt_len p s hb
        · exact ih st ht s hs2

theorem partsBytes_map_comp (l : List (List Nat)) :
    Part.partsBytes (l.map (fun s => Part.comp (cparse s).headers (cparse s).body)) =
      some (l.map (fun s => compBytes (cparse s))) := by
  induction l with
  | nil => rfl
  | cons s t ih =>
    simp only [List.map_cons]
    unfold Part.partsBytes
    rw [ih]
    rfl

/-- `Multipart.parseBody` with its `let`-bindings expanded. -/
theorem parseBody_eq (data boundary : List Nat) (mt : Option (List Nat)) :
    parseBody data boundary mt =
      mkMultipart
        ((pblAux (CRLF ++ data) boundary (boundary ++ DOUBLE_DASH) 0
            ((CRLF ++ data).length + 1) []).map
          (fun s => Part.comp (cparse s).headers (cparse s).body))
        boundary (mt.getD (str "multipart/mixed")) := rfl

/-- One unfolding of the scanning loop of `Multipart.parseBody`. -/
theorem pbl_step (padded boundary closing : List Nat) (start fuel : Nat)
    (acc : List (List Nat)) (h : start < padded.length) :
    pblAux padded boundary closing start (fuel + 1) acc =
      match findBoundaryBounds padded boundary start with
      | none => acc
      | some (_, e) =>
        match (match findBoundaryBounds padded boundary (e + 1) with
               | some r => some r
               | none => findBoundaryBounds padded closing (e + 1)) with
        | none => acc
        | some (nb, _) =>
          pblAux padded boundary closing nb fuel
            (acc ++ [(padded.drop e).take (nb - e)]) := by
  conv_lhs => rw [pblAux]
  rw [if_pos h]

/-- In a buffer `A ++ Tlist B (s :: rest)` free of earlier needle matches, the
boundary search finds the delimiter that opens the first remaining segment. -/
theorem fbb_tlist_cons {B : List Nat} (A s : List Nat) (rest : List (List Nat))
    (s0 : Nat) (hs0 : s0 ≤ A.length)
    (hnom : ∀ k, s0 ≤ k → k < A.length →
      matchAt (A ++ Tlist B (s :: rest)) (CRLF ++ DOUBLE_DASH ++ B) k = false) :
    findBoundaryBounds (A ++ Tlist B (s :: rest)) B s0 =
      some (A.length, A.length + B.length + 6) := by
  have hTge := Tlist_length_ge B (s :: rest)
  have hlen : (A ++ Tlist B (s :: rest)).length =
      A.length + (Tlist B (s :: rest)).length := List.length_append _ _
  have hmatch : matchAt (A ++ Tlist B (s :: rest)) (CRLF ++ DOUBLE_DASH ++ B)
      A.length = true := by
    have h0 := matchAt_shift A (Tlist B (s :: rest)) (CRLF ++ DOUBLE_DASH ++ B) 0
    rw [Nat.add_zero] at h0
    rw [h0]
    unfold matchAt
    rw [List.drop_zero, beq_iff_eq]
    exact Tlist_take B (s :: rest)
  have hfind : findSequenceIndex (A ++ Tlist B (s :: rest))
      (CRLF ++ DOUBLE_DASH ++ B) s0 = some A.length :=
    findSequenceIndex_eq_some hs0 (by omega) hmatch hnom
  rw [fbb_step _ _ _ (by omega), hfind]
  dsimp only
  have hcr : (A ++ Tlist B (s :: rest))[A.length + B.length + 4]? = some 13 := by
    rw [show A.length + B.length + 4 = A.length + (B.length + 4) from by omega,
      List.getElem?_append_right (by omega),
      show A.length + (B.length + 4) - A.length = B.length + 4 from by omega]
    exact Tlist_cons_at4 B s rest
  have hlf : (A ++ Tlist B (s :: rest))[A.length + B.length + 4 + 1]? = some 10 := by
    rw [show A.length + B.length + 4 + 1 = A.length + (B.length + 5) from by omega,
      List.getElem?_append_right (by omega),
      show A.length + (B.length + 5) - A.length = B.length + 5 from by omega]
    exact Tlist_cons_at5 B s rest
  rw [scanAux_run_term (A ++ Tlist B (s :: rest)) _ (A.length + B.length + 4)
    (A.length + B.length + 4) rfl (Nat.le_refl _)
    (fun k hk1 hk2 => absurd hk1 (by omega)) hcr hlf]

/-- In a buffer `A ++ Tclose B` free of earlier needle matches, the boundary
search finds the closing line, rejects it at the extra dashes, and gives up. -/
theorem fbb_tclose_none {B : List Nat} (hBcr : ∀ b ∈ B, b ≠ 13) (A : List Nat)
    (s0 : Nat) (hs0 : s0 ≤ A.length)
    (hnom : ∀ k, s0 ≤ k → k < A.length →
      matchAt (A ++ Tclose B) (CRLF ++ DOUBLE_DASH ++ B) k = false) :
    findBoundaryBounds (A ++ Tclose B) B s0 = none := by
  have hTlen : (Tclose B).length = B.length + 8 := Tclose_length B
  have hlen : (A ++ Tclose B).length = A.length + (Tclose B).length :=
    List.length_append _ _
  have hmatch : matchAt (A ++ Tclose B) (CRLF ++ DOUBLE_DASH ++ B)
      A.length = true := by
    have h0 := matchAt_shift A (Tclose B) (CRLF ++ DOUBLE_DASH ++ B) 0
    rw [Nat.add_zero] at h0
    rw [h0]
    unfold matchAt
    rw [List.drop_zero, beq_iff_eq,
      show (CRLF ++ DOUBLE_DASH ++ B).length = (Ndelim B).length from rfl,
      Tclose_decomp]
    exact List.take_left _ _
  have hfind : findSequenceIndex (A ++ Tclose B) (CRLF ++ DOUBLE_DASH ++ B) s0 =
      some A.length :=
    findSequenceIndex_eq_some hs0 (by omega) hmatch hnom
  rw [fbb_step _ _ _ (by omega), hfind]
  dsimp only
  have h45 : (A ++ Tclose B)[A.length + B.length + 4]? = some 45 := by
    rw [show A.length + B.length + 4 = A.length + (B.length + 4) from by omega,
      List.getElem?_append_right (by omega),
      show A.length + (B.length + 4) - A.length = B.length + 4 from by omega]
    exact Tclose_at4 B
  rw [scanAux_run_reject (A ++ Tclose B) _ (A.length + B.length + 4)
    (A.length + B.length + 4) 45 rfl (Nat.le_refl _)
    (fun k hk1 hk2 => absurd hk1 (by omega)) h45 (by decide) (by decide)
    (fun hc => absurd hc.1 (by decide))]
  dsimp only
  apply fbb_none_of_no_match
  intro k hk1 hk2
  rw [show k = A.length + (k - A.length) from by omega, matchAt_shift]
  exact Tclose_no_match hBcr (Nat.le_refl _) (k - A.length) (by omega)

/-- In a buffer `A ++ Tclose B` free of earlier closing-needle matches, the
search for the closing delimiter `boundary ++ "--"` succeeds at the closing
line. -/
theorem fbb_tclose_closing {B : List Nat} (A : List Nat) (s0 : Nat)
    (hs0 : s0 ≤ A.length)
    (hnom : ∀ k, s0 ≤ k → k < A.length →
      matchAt (A ++ Tclose B) (CRLF ++ DOUBLE_DASH ++ (B ++ DOUBLE_DASH)) k = false) :
    findBoundaryBounds (A ++ Tclose B) (B ++ DOUBLE_DASH) s0 =
      some (A.length, A.length + B.length + 8) := by
  have hTlen : (Tclose B).length = B.length + 8 := Tclose_length B
  have hlen : (A ++ Tclose B).length = A.length + (Tclose B).length :=
    List.length_append _ _
  have hdec : Tclose B = (CRLF ++ DOUBLE_DASH ++ (B ++ DOUBLE_DASH)) ++ CRLF := by
    simp [Tclose]
  have hmatch : matchAt (A ++ Tclose B)
      (CRLF ++ DOUBLE_DASH ++ (B ++ DOUBLE_DASH)) A.length = true := by
    have h0 := matchAt_shift A (Tclose B) (CRLF ++ DOUBLE_DASH ++ (B ++ DOUBLE_DASH)) 0
    rw [Nat.add_zero] at h0
    rw [h0]
    unfold matchAt
    rw [List.drop_zero, beq_iff_eq, hdec]
    exact List.take_left _ _
  have hfind : findSequenceIndex (A ++ Tclose B)
      (CRLF ++ DOUBLE_DASH ++ (B ++ DOUBLE_DASH)) s0 = some A.length :=
    findSequenceIndex_eq_some hs0 (by omega) hmatch hnom
  rw [fbb_step _ _ _ (by omega), hfind]
  dsimp only
  have hlen2 : (B ++ DOUBLE_DASH).length = B.length + 2 := by simp [DOUBLE_DASH]
  rw [hlen2]
  have hcr : (A ++ Tclose B)[A.length + (B.length + 2) + 4]? = some 13 := by
    rw [show A.length + (B.length + 2) + 4 = A.length + (B.length + 6) from by omega,
      List.getElem?_append_right (by omega),
      show A.length + (B.length + 6) - A.length = B.length + 6 from by omega]
    exact Tclose_at6 B
  have hlf : (A ++ Tclose B)[A.length + (B.length + 2) + 4 + 1]? = some 10 := by
    rw [show A.length + (B.length + 2) + 4 + 1 = A.length + (B.length + 7) from by omega,
      List.getElem?_append_right (by omega),
      show A.length + (B.length + 7) - A.length = B.length + 7 from by omega]
    exact Tclose_at7 B
  rw [scanAux_run_term (A ++ Tclose B) _ (A.length + (B.length + 2) + 4)
    (A.length + (B.length + 2) + 4) rfl (Nat.le_refl _)
    (fun k hk1 hk2 => absurd hk1 (by omega)) hcr hlf]
  rw [show A.length + (B.length + 2) + 4 + 2 = A.length + B.length + 8 from by omega]

/-- Running the scanning loop of `Multipart.parseBody` over a prefix `A` (with
no needle match before its end) followed by the delimited tail for `segs`
collects exactly `segs`. -/
theorem pbl_run {B : List Nat} (hB : isValidBoundary B = true) :
    ∀ (segs : List (List Nat)) (A : List Nat) (s0 : Nat) (acc : List (List Nat))
      (fuel : Nat),
      (∀ s ∈ segs, hasOccurrence (Ndelim B) s = false ∧ 1 ≤ s.length) →
      segs.length + 1 ≤ fuel → s0 ≤ A.length →
      (∀ k, s0 ≤ k → k < A.length →
        matchAt (A ++ Tlist B segs) (CRLF ++ DOUBLE_DASH ++ B) k = false) →
      pblAux (A ++ Tlist B segs) B (B ++ DOUBLE_DASH) s0 fuel acc = acc ++ segs := by
  have hBcr : ∀ b ∈ B, b ≠ 13 := fun b hb => (bcharSpec_facts (validB_byte hB hb)).1
  intro segs
  induction segs with
  | nil =>
    intro A s0 acc fuel hgood hfuel hs0 hnom
    obtain ⟨f, rfl⟩ : ∃ f, fuel = f + 1 := ⟨fuel - 1, by omega⟩
    have hlen : (A ++ Tlist B []).length = A.length + (B.length + 8) := by
      rw [List.length_append, show Tlist B [] = Tclose B from rfl, Tclose_length]
    rw [pbl_step _ _ _ _ _ _ (by omega)]
    rw [show Tlist B ([] : List (List Nat)) = Tclose B from rfl] at hnom ⊢
    rw [fbb_tclose_none hBcr A s0 hs0 hnom]
    simp
  | cons s rest ih =>
    intro A s0 acc fuel hgood hfuel hs0 hnom
    obtain ⟨f, rfl⟩ : ∃ f, fuel = f + 1 := ⟨fuel - 1, by omega⟩
    obtain ⟨hoccs, hslen⟩ := hgood s (List.mem_cons_self s rest)
    have hTge := Tlist_length_ge B (s :: rest)
    have hlen : (A ++ Tlist B (s :: rest)).length =
        A.length + (Tlist B (s :: rest)).length := List.length_append _ _
    rw [pbl_step _ _ _ _ _ _ (by omega)]
    rw [fbb_tlist_cons A s rest s0 hs0 hnom]
    dsimp only
    have hc2 : (CRLF : List Nat).length = 2 := rfl
    have hA1len : (A ++ (Ndelim B ++ CRLF)).length = A.length + B.length + 6 := by
      simp only [List.length_append, Ndelim_length, hc2]
      omega
    have hA2len : ((A ++ (Ndelim B ++ CRLF)) ++ s).length =
        A.length + B.length + 6 + s.length := by
      rw [List.length_append, hA1len]
    have hsplit2 : A ++ Tlist B (s :: rest) =
        ((A ++ (Ndelim B ++ CRLF)) ++ s) ++ Tlist B rest := by
      rw [Tlist_cons_decomp]
      simp [List.append_assoc]
    rw [hsplit2]
    have hT0 : (Tlist B rest)[0]? = some 13 := Tlist_head B rest
    have hnomseg : ∀ k, A.length + B.length + 6 + 1 ≤ k →
        k < ((A ++ (Ndelim B ++ CRLF)) ++ s).length →
        matchAt (((A ++ (Ndelim B ++ CRLF)) ++ s) ++ Tlist B rest)
          (CRLF ++ DOUBLE_DASH ++ B) k = false := by
      intro k hk1 hk2
      rw [hA2len] at hk2
      rw [List.append_assoc]
      rw [show k = (A ++ (Ndelim B ++ CRLF)).length + (k - (A.length + B.length + 6))
        from by rw [hA1len]; omega]
      rw [matchAt_shift]
      exact seg_no_match hBcr hT0 hoccs _ (by omega)
    have hnomclose : ∀ k, A.length + B.length + 6 + 1 ≤ k →
        k < ((A ++ (Ndelim B ++ CRLF)) ++ s).length →
        matchAt (((A ++ (Ndelim B ++ CRLF)) ++ s) ++ Tclose B)
          (CRLF ++ DOUBLE_DASH ++ (B ++ DOUBLE_DASH)) k = false := by
      intro k hk1 hk2
      rw [hA2len] at hk2
      rw [List.append_assoc]
      rw [show k = (A ++ (Ndelim B ++ CRLF)).length + (k - (A.length + B.length + 6))
        from by rw [hA1len]; omega]
      rw [matchAt_shift]
      exact seg_no_match_close hBcr (show (Tclose B)[0]? = some 13 from rfl)
        hoccs _ (by omega)
    have hcarve : ((((A ++ (Ndelim B ++ CRLF)) ++ s) ++ Tlist B rest).drop
        (A.length + B.length + 6)) = s ++ Tlist B rest := by
      rw [List.append_assoc, ← hA1len]
      exact List.drop_left _ _
    have htake : (s ++ Tlist B rest).take
        (((A ++ (Ndelim B ++ CRLF)) ++ s).length - (A.length + B.length + 6)) = s := by
      rw [hA2len,
        show A.length + B.length + 6 + s.length - (A.length + B.length + 6) = s.length
          from by omega]
      exact List.take_left _ _
    cases rest with
    | cons r rest2 =>
      rw [fbb_tlist_cons ((A ++ (Ndelim B ++ CRLF)) ++ s) r rest2
        (A.length + B.length + 6 + 1) (by rw [hA2len]; omega) hnomseg]
      dsimp only
      rw [hcarve, htake]
      have hrec := ih ((A ++ (Ndelim B ++ CRLF)) ++ s)
        (((A ++ (Ndelim B ++ CRLF)) ++ s).length) (acc ++ [s]) f
        (fun x hx => hgood x (List.mem_cons_of_mem s hx))
        (by simp only [List.length_cons] at hfuel ⊢; omega)
        (Nat.le_refl _)
        (fun k hk1 hk2 => absurd hk2 (by omega))
      rw [hrec]
      simp
    | nil =>
      rw [show Tlist B ([] : List (List Nat)) = Tclose B from rfl] at hcarve htake ⊢
      rw [fbb_tclose_none hBcr ((A ++ (Ndelim B ++ CRLF)) ++ s)
        (A.length + B.length + 6 + 1) (by rw [hA2len]; omega)
        (fun k hk1 hk2 => hnomseg k hk1 hk2)]
      dsimp only
      rw [fbb_tclose_closing ((A ++ (Ndelim B ++ CRLF)) ++ s)
        (A.length + B.length + 6 + 1) (by rw [hA2len]; omega) hnomclose]
      dsimp only
      rw [hcarve, htake]
      have hrec := ih ((A ++ (Ndelim B ++ CRLF)) ++ s)
        (((A ++ (Ndelim B ++ CRLF)) ++ s).length) (acc ++ [s]) f
        (fun x hx => absurd hx (List.not_mem_nil x))
        (by simp only [List.length_cons, List.length_nil] at hfuel ⊢; omega)
        (Nat.le_refl _)
        (fun k hk1 hk2 => absurd hk2 (by omega))
      rw [show Tclose B = Tlist B ([] : List (List Nat)) from rfl]
      rw [hrec]
      simp

/-- The CRLF-padded serialized header block of the outer multipart (a single
CR-free header line that does not start with a dash) contains no occurrence of
the delimiter needle before the delimited tail begins. -/
theorem A0_no_match {B : List Nat} (raw T : List Nat)
    (hrawcr : ∀ b ∈ raw, b ≠ 13) (hraw0 : raw[0]? ≠ some 45) (hrawne : raw ≠ [])
    (hT0 : T[0]? = some 13) :
    ∀ k, k < (CRLF ++ raw ++ CRLF).length →
      matchAt ((CRLF ++ raw ++ CRLF) ++ T) (CRLF ++ DOUBLE_DASH ++ B) k = false := by
  have hshape : (CRLF ++ raw ++ CRLF) ++ T = 13 :: 10 :: (raw ++ (13 :: 10 :: T)) := by
    simp [CRLF, CR, LF]
  have hAlen : (CRLF ++ raw ++ CRLF).length = raw.length + 4 := by
    simp [CRLF]
  have hNlen : (CRLF ++ DOUBLE_DASH ++ B).length = B.length + 4 := Ndelim_length B
  intro k hk
  rw [Bool.eq_false_iff]
  intro hm
  have h0 := matchAt_getElem hm 0 (by omega)
  have h2 := matchAt_getElem hm 2 (by omega)
  rw [Nat.add_zero] at h0
  rw [show (CRLF ++ DOUBLE_DASH ++ B)[0]? = some 13 from rfl] at h0
  rw [show (CRLF ++ DOUBLE_DASH ++ B)[2]? = some 45 from rfl] at h2
  rw [hAlen] at hk
  rw [hshape] at h0 h2
  match k, hk with
  | 0, _ =>
    rw [show (0 : Nat) + 2 = 0 + 1 + 1 from rfl, List.getElem?_cons_succ,
      List.getElem?_cons_succ] at h2
    cases raw with
    | nil => exact hrawne rfl
    | cons c r =>
      apply hraw0
      rw [List.cons_append, List.getElem?_cons_zero] at h2
      rw [List.getElem?_cons_zero]
      exact h2
  | 1, _ => simp at h0
  | (k2 + 2), hk =>
    rw [show k2 + 2 = k2 + 1 + 1 from rfl, List.getElem?_cons_succ,
      List.getElem?_cons_succ] at h0
    rw [show k2 + 1 + 1 + 2 = k2 + 2 + 1 + 1 from rfl, List.getElem?_cons_succ,
      List.getElem?_cons_succ] at h2
    by_cases hkr : k2 < raw.length
    · rw [List.getElem?_append_left hkr] at h0
      exact hrawcr 13 (List.getElem?_mem h0) rfl
    · have hcases : k2 = raw.length ∨ k2 = raw.length + 1 := by omega
      rcases hcases with rfl | hc1
      · rw [List.getElem?_append_right (by omega),
          show raw.length + 2 - raw.length = 2 from by omega] at h2
        rw [show (2 : Nat) = 0 + 1 + 1 from rfl, List.getElem?_cons_succ,
          List.getElem?_cons_succ] at h2
        rw [hT0] at h2
        simp at h2
      · subst hc1
        rw [List.getElem?_append_right (by omega),
          show raw.length + 1 - raw.length = 1 from by omega] at h0
        simp at h0

theorem renderBoundary_bytes {B : List Nat} (hB : isValidBoundary B = true) :
    ∀ b ∈ renderBoundary B, b ≠ 13 ∧ b ≠ 10 := by
  have hB34 : (34 : Nat) ∉ B := fun hc =>
    (bcharSpec_facts (validB_byte hB hc)).2.2.1 rfl
  intro b hb
  unfold renderBoundary at hb
  by_cases hq : boundaryShouldBeQuoted B = true
  · rw [if_pos hq, escapeQuotes_id hB34] at hb
    simp only [List.mem_append, List.mem_singleton] at hb
    rcases hb with (hb | hb) | hb
    · subst hb; exact ⟨by decide, by decide⟩
    · exact ⟨(bcharSpec_facts (validB_byte hB hb)).1,
        (bcharSpec_facts (validB_byte hB hb)).2.1⟩
    · subst hb; exact ⟨by decide, by decide⟩
  · rw [if_neg hq] at hb
    exact ⟨(bcharSpec_facts (validB_byte hB hb)).1,
      (bcharSpec_facts (validB_byte hB hb)).2.1⟩

theorem ctv_bytes {B mt : List Nat} (hB : isValidBoundary B = true)
    (hmt : ∀ b ∈ mt, b ≠ 13 ∧ b ≠ 10) :
    ∀ b ∈ contentTypeValue mt B, b ≠ 13 ∧ b ≠ 10 := by
  intro b hb
  unfold contentTypeValue at hb
  simp only [List.mem_append] at hb
  rcases hb with (hb | hb) | hb
  · exact hmt b hb
  · constructor <;> (intro hc; subst hc; revert hb; decide)
  · exact renderBoundary_bytes hB b hb

theorem renderBoundary_ne_nil {B : List Nat} (hB : isValidBoundary B = true) :
    renderBoundary B ≠ [] := by
  unfold renderBoundary
  by_cases hq : boundaryShouldBeQuoted B = true
  · rw [if_pos hq]
    simp
  · rw [if_neg hq]
    intro hc
    have h1 := ((isValidBoundary_iff B).mp hB).1
    rw [hc] at h1
    simp at h1

theorem renderBoundary_last {B : List Nat} (hB : isValidBoundary B = true) :
    ∀ b, (renderBoundary B).getLast? = some b → jsWS b = false := by
  intro b hlast
  unfold renderBoundary at hlast
  by_cases hq : boundaryShouldBeQuoted B = true
  · rw [if_pos hq] at hlast
    rw [List.getLast?_append_of_ne_nil _ (by simp : ([34] : List Nat) ≠ [])] at hlast
    simp at hlast
    subst hlast
    decide
  · rw [if_neg hq] at hlast
    obtain ⟨h1, h2, h3, h4⟩ := (isValidBoundary_iff B).mp hB
    have hbmem : b ∈ B := by
      obtain ⟨hne, rfl⟩ := List.mem_getLast?_eq_getLast
        (show b ∈ B.getLast? from by rw [Option.mem_def]; exact hlast)
      exact List.getLast_mem hne
    have hf := bcharSpec_facts (h4 b hbmem)
    apply jsWS_false
    refine ⟨hf.2.2.2.2.2.1, hf.2.1, hf.2.2.2.2.2.2.1, hf.2.2.2.2.2.2.2, hf.1, ?_⟩
    intro hc
    subst hc
    exact h3 hlast

theorem ctv_head {B mt : List Nat} (hmt0 : ∀ b ∈ mt.take 1, jsWS b = false) :
    ∀ b, (contentTypeValue mt B).head? = some b → jsWS b = false := by
  intro b hb
  cases mt with
  | nil =>
    rw [show (contentTypeValue [] B).head? = some 59 from rfl] at hb
    rw [Option.some_inj] at hb
    subst hb
    decide
  | cons c mt2 =>
    rw [show (contentTypeValue (c :: mt2) B).head? = some c from rfl] at hb
    rw [Option.some_inj] at hb
    subst hb
    exact hmt0 c (by simp)

theorem ctv_trim {B mt : List Nat} (hB : isValidBoundary B = true)
    (hmt0 : ∀ b ∈ mt.take 1, jsWS b = false) :
    jsTrim (contentTypeValue mt B) = contentTypeValue mt B := by
  apply jsTrim_eq_self
  · exact ctv_head hmt0
  · intro b hb
    unfold contentTypeValue at hb
    rw [List.getLast?_append_of_ne_nil _ (renderBoundary_ne_nil hB)] at hb
    exact renderBoundary_last hB b hb

theorem ctv_headersWF {B mt : List Nat} (hB : isValidBoundary B = true)
    (hmt : ∀ b ∈ mt, b ≠ 13 ∧ b ≠ 10)
    (hmt0 : ∀ b ∈ mt.take 1, jsWS b = false) :
    headersWF [(str "content-type", contentTypeValue mt B)] := by
  constructor
  · intro e he
    simp only [List.mem_singleton] at he
    subst he
    dsimp only
    exact ⟨by decide, ctv_trim hB hmt0, ctv_bytes hB hmt⟩
  · simp

theorem hpad_eq (B mt : List Nat) (segs : List (List Nat)) :
    CRLF ++ compBytes ⟨[(str "content-type", contentTypeValue mt B)],
        renderBody B segs⟩ =
      (CRLF ++ (str "content-type" ++ [COLON, SP] ++ contentTypeValue mt B) ++ CRLF)
        ++ Tlist B segs := by
  rw [← CRLF_renderBody B segs]
  simp only [compBytes, headerBytes, List.map_cons, List.map_nil,
    List.flatten_cons, List.flatten_nil, List.append_nil, List.append_assoc]

theorem raw_facts {B mt : List Nat} (hB : isValidBoundary B = true)
    (hmt : ∀ b ∈ mt, b ≠ 13 ∧ b ≠ 10) :
    (∀ b ∈ str "content-type" ++ [COLON, SP] ++ contentTypeValue mt B, b ≠ 13) ∧
    (str "content-type" ++ [COLON, SP] ++ contentTypeValue mt B)[0]? ≠ some 45 ∧
    (str "content-type" ++ [COLON, SP] ++ contentTypeValue mt B) ≠ [] := by
  refine ⟨?_, ?_, ?_⟩
  · intro b hb
    simp only [List.mem_append] at hb
    rcases hb with (hb | hb) | hb
    · intro hc; subst hc; revert hb; decide
    · intro hc; subst hc; revert hb; decide
    · exact (ctv_bytes hB hmt b hb).1
  · rw [List.getElem?_append_left (by decide)]
    decide
  · intro hc
    have h0 : (str "content-type" ++ [COLON, SP] ++ contentTypeValue mt B)[0]? =
        (str "content-type" ++ [COLON, SP])[0]? := List.getElem?_append_left (by decide)
    rw [hc] at h0
    exact absurd h0 (by decide)

/-- C1 (amended): the serialize-parse-reserialize round trip of a Multipart is
the identity provided that, in addition to a valid boundary and serialized
parts containing no literal occurrence of `CRLF "--" boundary`, the media type
is free of CR, LF and semicolon and does not begin with a whitespace byte, all
parts serialize successfully, and each serialized part re-serializes verbatim
under `Component.parse`. -/
theorem multipart_roundtrip (parts : List Part) (B mt : List Nat)
    (segs : List (List Nat))
    (hB : isValidBoundary B = true)
    (hmt : ∀ b ∈ mt, b ≠ 13 ∧ b ≠ 10 ∧ b ≠ 59)
    (hmt0 : ∀ b ∈ mt.take 1, jsWS b = false)
    (hsegs : Part.partsBytes parts = some segs)
    (hocc : ∀ s ∈ segs, hasOccurrence (CRLF ++ DOUBLE_DASH ++ B) s = false)
    (hrt : ∀ s ∈ segs, compBytes (cparse s) = s) :
    (Part.bytesOpt (mkMultipart parts B mt)).bind
        (fun d => (parseFn d).bind Part.bytesOpt) =
      Part.bytesOpt (mkMultipart parts B mt) := by
  have hmt2 : ∀ b ∈ mt, b ≠ 13 ∧ b ≠ 10 := fun b hb => ⟨(hmt b hb).1, (hmt b hb).2.1⟩
  have hhs : headersSet [] (str "Content-Type") (contentTypeValue mt B) =
      [(str "content-type", contentTypeValue mt B)] := by
    rw [headersSet_nil,
      show nameKey (str "Content-Type") = str "content-type" from by decide]
  have hser : Part.bytesOpt (mkMultipart parts B mt) =
      some (compBytes ⟨[(str "content-type", contentTypeValue mt B)],
        renderBody B segs⟩) := by
    unfold mkMultipart
    rw [hhs]
    show (if isValidBoundary B then
        match Part.partsBytes parts with
        | some segs2 => some (headerBytes
            [(str "content-type", contentTypeValue mt B)] ++
            CRLF ++ renderBody B segs2)
        | none => none
      else none) = _
    rw [if_pos hB, hsegs]
    rfl
  rw [hser]
  simp only [Option.some_bind]
  have hcp : cparse (compBytes ⟨[(str "content-type", contentTypeValue mt B)],
      renderBody B segs⟩) = ⟨[(str "content-type", contentTypeValue mt B)],
      renderBody B segs⟩ :=
    cparse_compBytes _ _ (ctv_headersWF hB hmt2 hmt0)
  unfold parseFn
  rw [hcp]
  unfold partFn
  dsimp only
  have hget : headersGet [(str "content-type", contentTypeValue mt B)]
      (str "content-type") = some (contentTypeValue mt B) := by
    have h1 := headersGet_single (str "content-type") (contentTypeValue mt B)
    rw [show nameKey (str "content-type") = str "content-type" from by decide] at h1
    exact h1
  rw [hget]
  dsimp only
  rw [parseContentType_value mt B hB (fun b hb => (hmt b hb).2.2)]
  dsimp only
  simp only [Option.some_bind]
  rw [parseBody_eq]
  dsimp only [Option.getD]
  rw [hpad_eq B mt segs]
  have hA0 := raw_facts hB hmt2
  have hloop : pblAux ((CRLF ++ (str "content-type" ++ [COLON, SP] ++
        contentTypeValue mt B) ++ CRLF) ++ Tlist B segs) B (B ++ DOUBLE_DASH) 0
      (((CRLF ++ (str "content-type" ++ [COLON, SP] ++ contentTypeValue mt B) ++
        CRLF) ++ Tlist B segs).length + 1) [] = [] ++ segs :=
    pbl_run hB segs
      (CRLF ++ (str "content-type" ++ [COLON, SP] ++ contentTypeValue mt B) ++ CRLF)
      0 []
      (((CRLF ++ (str "content-type" ++ [COLON, SP] ++ contentTypeValue mt B) ++
        CRLF) ++ Tlist B segs).length + 1)
      (fun s hs => ⟨hocc s hs, partsBytes_mem_len parts segs hsegs s hs⟩)
      (by
        have h2 := Tlist_length_ge_count B segs
        rw [List.length_append]
        omega)
      (Nat.zero_le _)
      (fun k hk1 hk2 => A0_no_match _ _ hA0.1 hA0.2.1 hA0.2.2
        (Tlist_head B segs) k hk2)
  rw [hloop]
  simp only [List.nil_append]
  unfold mkMultipart
  rw [hhs]
  show (if isValidBoundary B then
      match Part.partsBytes (segs.map (fun s =>
        Part.comp (cparse s).headers (cparse s).body)) with
      | some segs2 => some (headerBytes
          [(str "content-type", contentTypeValue mt B)] ++
          CRLF ++ renderBody B segs2)
      | none => none
    else none) = _
  rw [if_pos hB, partsBytes_map_comp segs, map_id_of_mem hrt]
  rfl

/-- C1 counterexample: boundary "b" (valid) and media type ";", with no parts
at all, satisfy the claim's hypotheses, yet the round trip is not the
identity: `Multipart.parseContentType` splits the generated header value
`";; boundary=b"` at its first ";", so the reparsed multipart re-serializes
with media type "" and a different byte sequence. -/
theorem multipart_roundtrip_cex :
    isValidBoundary [98] = true ∧
    (Part.bytesOpt (mkMultipart [] [98] [59])).bind
        (fun d => (parseFn d).bind Part.bytesOpt) ≠
      Part.bytesOpt (mkMultipart [] [98] [59]) := by
  constructor
  · decide
  · decide

/-- Witness for C1's amended theorem at a concrete one-part multipart. -/
theorem multipart_roundtrip_witness :
    isValidBoundary [98] = true ∧
    Part.partsBytes [Part.comp [] []] = some [[13, 10]] ∧
    (∀ s ∈ [[13, 10]], hasOccurrence (CRLF ++ DOUBLE_DASH ++ [98]) s = false) ∧
    (∀ s ∈ [[13, 10]], compBytes (cparse s) = s) ∧
    (Part.bytesOpt (mkMultipart [Part.comp [] []] [98] (str "multipart/mixed"))).bind
        (fun d => (parseFn d).bind Part.bytesOpt) =
      Part.bytesOpt (mkMultipart [Part.comp [] []] [98] (str "multipart/mixed")) :=
  ⟨by decide, by decide, by decide, by decide,
    multipart_roundtrip [Part.comp [] []] [98] (str "multipart/mixed") [[13, 10]]
      (by decide) (by decide) (by decide) (by decide) (by decide) (by decide)⟩

end MP
